import Mathlib

/-!
Behaviour layer of the ical documentation site (`static/js/main.js`)

A shallow embedding of the six independent components of `main.js` and the
properties of them that the specification states.

Conventions of the embedding:

* JavaScript strings are sequences of UTF-16 code units: `Text := List Char`
  for the texts that are sliced or concatenated (the commands of the terminal
  sequencer, the identifiers of the install tabs), `String` for values that are
  only compared and copied.
* `document.querySelector` is the host's: the tabs block takes it as a
  parameter, with the contract `QuerySpec`.
* A value that may be `null` (`getAttribute`, `getItem`, `querySelector`) is an
  `Option`.
* Time is counted in whole timer units (milliseconds): the host converts every
  `setTimeout` delay to an integer, and a callback runs at the due time of its
  timer.
* `Math.random()` is an input: each call of `typeNext` receives the whole part
  `r` of `Math.random() * 28`, so `r < 28`.
* Pending timers are kept in registration order; the event loop runs the one
  with the least due time, the earliest registered among equals.
-/

namespace Ical

/-! ## Terminal typing animation (lines 129-188) -/

/-- Text shown in an element (`textContent`), as a sequence of code units. -/
abbrev Text := List Char

/-- One entry of the `demos` array: a command and its pre-scripted output. -/
structure Demo where
  cmd : Text
  output : Text
deriving DecidableEq, Repr

/-- The two functions the sequencer passes to `setTimeout`: `typeNext` itself
and the anonymous function of lines 172-175, which closes over `demo`. -/
inductive Callback where
  | typeNext
  | render (demo : Demo)
deriving DecidableEq, Repr

/-- A pending timer: its due time and the callback to run. -/
structure Timer where
  fireAt : Nat
  cb : Callback
deriving DecidableEq, Repr

/-- The closure variables `demoIdx`, `charIdx`, `typing`, the text of the two
display elements, the clock and the pending timers. -/
structure Seq where
  demoIdx : Nat
  charIdx : Nat
  typing : Bool
  cmdText : Text
  outText : Text
  now : Nat
  timers : List Timer
deriving DecidableEq, Repr

/-- The constant `pauseAfter` of line 160. -/
def pauseAfter : Nat := 2200

/-- The script of lines 135-155. -/
def demos : List Demo :=
  [ { cmd := "ical today".toList,
      output := "#  Title              Calendar   Start        End\n1  Team standup        Work       9:00 AM      9:30 AM\n2  Design review       Work       2:00 PM      3:00 PM\n3  Gym                 Personal   6:00 PM      7:00 PM".toList },
    { cmd := "ical add \"Launch party\" -s friday 5pm -e friday 8pm".toList,
      output := "Created event: Launch party (Work)".toList },
    { cmd := "ical upcoming -d 3".toList,
      output := "#  Title              Calendar   Date         Time\n1  Team standup        Work       Today        9:00 AM\n2  Design review       Work       Today        2:00 PM\n3  1:1 with Alex       Work       Tomorrow     10:00 AM\n4  Launch party        Work       Fri          5:00 PM".toList },
    { cmd := "ical search \"launch\"".toList,
      output := "#  Title              Calendar   Date         Time\n1  Launch party        Work       Fri Feb 14   5:00 PM".toList } ]

/-- Registers `cb` to run `delay` units from now: `setTimeout(cb, delay)`. -/
def setTimeout (cb : Callback) (delay : Nat) (s : Seq) : Seq :=
  { s with timers := s.timers ++ [⟨s.now + delay, cb⟩] }

/-- The function `typeNext` of lines 162-185 over the script `script`, with `r`
the whole part of `Math.random() * 28`. The result is `none` when the call
throws: `demo.cmd` on an index outside the script. (For an empty script the
remainder of line 182 is not a number in JavaScript; that branch is never
reached then, because `typing` starts true and the first call throws.) -/
def typeNext (script : List Demo) (r : Nat) (s : Seq) : Option Seq :=
  let demo := script[s.demoIdx]?
  if s.typing then
    match demo with
    | none => none
    | some demo =>
      if s.charIdx ≤ demo.cmd.length then
        some (setTimeout .typeNext (32 + r)
          { s with cmdText := demo.cmd.take s.charIdx, charIdx := s.charIdx + 1 })
      else
        some (setTimeout (.render demo) 300 { s with typing := false })
  else
    some (setTimeout .typeNext 400
      { s with outText := [], cmdText := [], charIdx := 0, typing := true,
               demoIdx := (s.demoIdx + 1) % script.length })

/-- Runs one callback. -/
def runCallback (script : List Demo) (r : Nat) : Callback → Seq → Option Seq
  | .typeNext, s => typeNext script r s
  | .render demo, s => some (setTimeout .typeNext pauseAfter { s with outText := demo.output })

/-- The timer the event loop runs next, and the ones that stay pending. -/
def nextTimer : List Timer → Option (Timer × List Timer)
  | [] => none
  | t :: ts =>
    match nextTimer ts with
    | none => some (t, [])
    | some (u, rest) => if u.fireAt < t.fireAt then some (u, t :: rest) else some (t, ts)

/-- One turn of the event loop: the next timer comes due and its callback runs.
`none` when nothing is pending or the callback throws. -/
def fire (script : List Demo) (r : Nat) (s : Seq) : Option Seq :=
  match nextTimer s.timers with
  | none => none
  | some (t, rest) => runCallback script r t.cb { s with now := t.fireAt, timers := rest }

/-- The state right after the script block has run at load (time 0): the
variables of lines 157-159, both displays empty, and the timer of line 187. -/
def init : Seq :=
  setTimeout .typeNext 800
    { demoIdx := 0, charIdx := 0, typing := true, cmdText := [], outText := [],
      now := 0, timers := [] }

/-- The state after `n` timers have come due, the `i`-th call of `Math.random`
contributing `rs i`. -/
def run (script : List Demo) (rs : Nat → Nat) : Nat → Option Seq
  | 0 => some init
  | n + 1 => (run script rs n).bind (fire script (rs n))

/-- Whether the `i`-th timer turn is a Paused -> Typing reset. -/
def isReset (script : List Demo) (rs : Nat → Nat) (i : Nat) : Bool :=
  match run script rs i, run script rs (i + 1) with
  | some a, some b => !a.typing && b.typing
  | _, _ => false

/-- The number of resets among the first `m` timer turns. -/
def resetCount (script : List Demo) (rs : Nat → Nat) : Nat → Nat
  | 0 => 0
  | m + 1 => resetCount script rs m + (if isReset script rs m then 1 else 0)

/-- The number of timer turns one demo takes: one per prefix of the command
(the empty one included), the turn that leaves typing, the one that renders the
output and the reset. -/
def turnsOf (d : Demo) : Nat := d.cmd.length + 4

/-- The number of timer turns the first `k` demos of the cycle take. -/
def turnsTo (script : List Demo) : Nat → Nat
  | 0 => 0
  | k + 1 => turnsTo script k + match script[k % script.length]? with
      | some d => turnsOf d
      | none => 0

/-- Total delay of the `j` typing turns that start at turn `m`. -/
def typedFor (rs : Nat → Nat) (m : Nat) : Nat → Nat
  | 0 => 0
  | j + 1 => typedFor rs m j + (32 + rs (m + j))

/-- The two-item script of the end-to-end property. -/
def scriptAB : List Demo := [⟨['a'], ['x']⟩, ⟨['b'], ['y']⟩]

/-- The state while the command of demo `i` is being typed, `c` the character
index, `n` the clock and `t` the due time of the pending `typeNext`. -/
def typingState (i c : Nat) (d : Demo) (n t : Nat) : Seq :=
  { demoIdx := i, charIdx := c, typing := true, cmdText := d.cmd.take (c - 1),
    outText := [], now := n, timers := [⟨t, .typeNext⟩] }

/-- The state between the turn that leaves typing and the rendering of the
output. -/
def settleState (i : Nat) (d : Demo) (n t : Nat) : Seq :=
  { demoIdx := i, charIdx := d.cmd.length + 1, typing := false, cmdText := d.cmd,
    outText := [], now := n, timers := [⟨t, .render d⟩] }

/-- The state while the output is on display. -/
def dwellState (i : Nat) (d : Demo) (n t : Nat) : Seq :=
  { demoIdx := i, charIdx := d.cmd.length + 1, typing := false, cmdText := d.cmd,
    outText := d.output, now := n, timers := [⟨t, .typeNext⟩] }

/-- The clock after `j` typing turns that start at turn `m`, the first of them
due at `t`, from a clock value `n`. -/
def clockAfter (rs : Nat → Nat) (m n t : Nat) : Nat → Nat
  | 0 => n
  | j + 1 => t + typedFor rs m j

/-- The due time of the turn that leaves typing, for a demo started at turn `m`
whose first `typeNext` is due at `t`. -/
def leaveTime (rs : Nat → Nat) (m t : Nat) (d : Demo) : Nat :=
  t + typedFor rs m (d.cmd.length + 1)

/-- The shape of the pending timers and of the output display in each of the
three phases of a demo: typing, waiting to render, dwelling on the output. -/
def Phase (d : Demo) (s : Seq) : Prop :=
  (s.typing = true ∧ s.outText = [] ∧ ∃ t, s.timers = [⟨t, .typeNext⟩])
  ∨ (s.typing = false ∧ s.charIdx = d.cmd.length + 1 ∧ s.outText = []
      ∧ ∃ t, s.timers = [⟨t, .render d⟩])
  ∨ (s.typing = false ∧ s.charIdx = d.cmd.length + 1 ∧ s.outText = d.output
      ∧ ∃ t, s.timers = [⟨t, .typeNext⟩])

/-- The inductive invariant: the current demo exists, the character index is
within the command plus one, the command display is the prefix typed so far,
and the phase is one of the three. -/
def Inv (script : List Demo) (s : Seq) : Prop :=
  ∃ d, script[s.demoIdx]? = some d ∧ s.charIdx ≤ d.cmd.length + 1
    ∧ s.cmdText = d.cmd.take (s.charIdx - 1) ∧ Phase d s

/-! ## Theme toggle (lines 1-21) -/

/-- The store `localStorage`: the string kept under each key, if any. -/
abbrev Storage := String → Option String

/-- The call `localStorage.getItem(key)`: `none` is `null`. -/
def getItem (st : Storage) (key : String) : Option String := st key

/-- The call `localStorage.setItem(key, value)`. -/
def setItem (st : Storage) (key value : String) : Storage :=
  fun k => if k = key then some value else st k

/-- What the theme block reads and writes: the `data-theme` attribute of the
document root (`none` when the attribute is absent) and the store. -/
structure ThemePage where
  dataTheme : Option String
  localStorage : Storage

/-- Truthiness of a string-or-null, as `if (saved)` tests it: `null` and the
empty string are falsy. -/
def truthy : Option String → Bool
  | none => false
  | some v => decide (v ≠ "")

/-- Lines 6-11, run at load: `prefersDark` is
`window.matchMedia('(prefers-color-scheme: dark)').matches`. -/
def themeLoad (prefersDark : Bool) (p : ThemePage) : ThemePage :=
  let saved := getItem p.localStorage "theme"
  if truthy saved then
    { p with dataTheme := saved }
  else if prefersDark then
    { p with dataTheme := some "dark" }
  else
    p

/-- The click handler of the theme toggle, lines 14-19. -/
def themeToggleClick (p : ThemePage) : ThemePage :=
  let current := p.dataTheme
  let next := if current = some "dark" then "light" else "dark"
  { dataTheme := some next, localStorage := setItem p.localStorage "theme" next }

/-- A store with nothing in it. -/
def emptyStorage : Storage := fun _ => none

/-! ## Scroll reveal (lines 34-55) -/

/-- One `IntersectionObserverEntry`: the element it is about (elements are
numbered) and whether it is intersecting. -/
structure Entry where
  target : Nat
  isIntersecting : Bool
deriving DecidableEq, Repr

/-- For each element, whether it carries the class `visible` and whether the
observer watches it. -/
structure Reveal where
  visible : Nat → Bool
  observed : Nat → Bool

/-- The body of the `forEach` of lines 41-46 for one entry. -/
def revealEntry (s : Reveal) (entry : Entry) : Reveal :=
  if entry.isIntersecting then
    { visible := fun el => if el = entry.target then true else s.visible el,
      observed := fun el => if el = entry.target then false else s.observed el }
  else
    s

/-- The observer callback of lines 40-47 on one notification. -/
def observerCallback (s : Reveal) (entries : List Entry) : Reveal :=
  entries.foldl revealEntry s

/-- The state after a sequence of notifications has been delivered. -/
def deliver (s : Reveal) (notifications : List (List Entry)) : Reveal :=
  notifications.foldl observerCallback s

/-- The state lines 51-54 set up for `n` tagged elements, none visible yet: all
of them watched. -/
def revealInit (n : Nat) : Reveal :=
  { visible := fun _ => false, observed := fun el => decide (el < n) }

/-- Whether a notification reports element `el` as intersecting. -/
def intersects (el : Nat) (entries : List Entry) : Bool :=
  entries.any fun e => decide (e.target = el) && e.isIntersecting

/-- The number of notifications at which element `el` goes from not visible to
visible. -/
def transitions (el : Nat) : Reveal → List (List Entry) → Nat
  | _, [] => 0
  | s, n :: ns =>
    (if !s.visible el && (observerCallback s n).visible el then 1 else 0)
      + transitions el (observerCallback s n) ns

/-! ## Copy buttons (lines 57-75 and 99-127) -/

/-- The two values the handlers give `btn.innerHTML`: the copy icon
(`copyIcon14`, `copyIcon`) and the check mark (`checkIcon14`, `checkIcon`). -/
inductive Glyph where
  | copyIcon
  | checkIcon
deriving DecidableEq, Repr

/-- One copy control: its designated text (the `data-copy` attribute of an
install button, `code.textContent` for a code block button; `none` is `null`),
its glyph, whether it carries the class `copied`, the clock, the due times of
the pending revert timers, the number of clipboard writes not yet settled and
the arguments `writeText` has been called with. -/
structure CopyBtn where
  text : Option String
  innerHTML : Glyph
  copied : Bool
  now : Nat
  timers : List Nat
  pending : Nat
  written : List (Option String)
deriving DecidableEq, Repr

/-- What can happen to a copy control: it is activated, a pending clipboard
write is confirmed or fails, or time passes. -/
inductive CopyEvent where
  | click
  | confirm
  | fail
  | advance (dt : Nat)
deriving DecidableEq, Repr

/-- The handlers of lines 63-73 and 113-123, and the passing of time. A click
calls `writeText(text)`; the confirmation of a write shows the check mark, adds
the class `copied` and sets a timer 1500 units ahead; a failed write does
nothing; when time passes every timer that has come due shows the copy icon and
removes the class. -/
def copyStep (b : CopyBtn) : CopyEvent → CopyBtn
  | .click => { b with written := b.written ++ [b.text], pending := b.pending + 1 }
  | .confirm =>
    if b.pending = 0 then b
    else { b with pending := b.pending - 1, innerHTML := .checkIcon, copied := true,
                  timers := b.timers ++ [b.now + 1500] }
  | .fail => { b with pending := b.pending - 1 }
  | .advance dt =>
    if b.timers.any (fun t => decide (t ≤ b.now + dt)) then
      { b with now := b.now + dt, innerHTML := .copyIcon, copied := false,
               timers := b.timers.filter (fun t => decide (b.now + dt < t)) }
    else
      { b with now := b.now + dt }

/-- A sequence of events on a copy control. -/
def copyRun (b : CopyBtn) (events : List CopyEvent) : CopyBtn :=
  events.foldl copyStep b

/-- The time that passes during a sequence of events. -/
def elapsed : List CopyEvent → Nat
  | [] => 0
  | .advance dt :: es => dt + elapsed es
  | _ :: es => elapsed es

/-- A copy control at load, with its designated text. -/
def copyInit (text : Option String) : CopyBtn :=
  { text := text, innerHTML := .copyIcon, copied := false, now := 0, timers := [],
    pending := 0, written := [] }

/-! ## Install tabs (lines 77-97) -/

/-- An element of the document, as far as the tabs block tells elements apart:
whether it carries the classes `install-tab` (it is in `tabs`) and
`install-panel` (it is in `panels`), its `data-tab` and `data-panel` attributes,
whether it carries the class `active`, and its `aria-selected` attribute. The
document is the list of its elements in document order. -/
structure Element where
  installTab : Bool
  installPanel : Bool
  dataTab : Option Text
  dataPanel : Option Text
  active : Bool
  ariaSelected : Option String
deriving DecidableEq, Repr

/-- The outcomes of a call of `document.querySelector`: it throws a
`SyntaxError`, returns `null`, or returns the element at place `j`. -/
inductive QueryResult where
  | syntaxError
  | null
  | found (j : Nat)
deriving DecidableEq, Repr

/-- The text `'' + target`: `null` becomes the text `null`. -/
def targetText : Option Text → Text
  | none => ['n', 'u', 'l', 'l']
  | some v => v

/-- The text before the value in the selector of line 93: `[data-panel=` and a
double quote (code 34). -/
def selectorHead : Text :=
  ['[', 'd', 'a', 't', 'a', '-', 'p', 'a', 'n', 'e', 'l', '=', Char.ofNat 34]

/-- The text after the value in the selector of line 93: a double quote and
the closing bracket. -/
def selectorTail : Text := [Char.ofNat 34, ']']

/-- The selector of line 93, `'[data-panel="' + target + '"]'`. -/
def selectorText (target : Option Text) : Text :=
  selectorHead ++ targetText target ++ selectorTail

/-- A character that stands for itself inside the double-quoted string of a
selector: not the double quote (34), the backslash (92), a line feed (10), a
carriage return (13), a form feed (12) or the null character. -/
def plainChar (c : Char) : Bool :=
  c.toNat != 34 && c.toNat != 92 && c.toNat != 10 && c.toNat != 13 && c.toNat != 12
    && c.toNat != 0

/-- The index of the first element that satisfies `p`. -/
def firstIdx {α : Type} (p : α → Bool) : List α → Option Nat
  | [] => none
  | a :: l => if p a then some 0 else (firstIdx p l).map (· + 1)

/-- The first element of the document whose `data-panel` attribute is `v`. -/
def firstPanel (v : Text) (doc : List Element) : Option Nat :=
  firstIdx (fun e => decide (e.dataPanel = some v)) doc

/-- What the tabs block relies on from `document.querySelector`, which is the
host's and takes the selector as text: on the selector `[data-panel="v"]` with
`v` made of plain characters it returns the first element in document order
whose `data-panel` attribute is `v`, or `null` when there is none. Nothing is
assumed about any other selector text. -/
def QuerySpec (querySelector : Text → List Element → QueryResult) : Prop :=
  ∀ (v : Text) (doc : List Element), (∀ c ∈ v, plainChar c = true) →
    querySelector (selectorHead ++ v ++ selectorTail) doc
      = match firstPanel v doc with
        | some j => .found j
        | none => .null

/-- A query engine that meets `QuerySpec` and reports a syntax error on every
other selector text. -/
def plainQuerySelector (selector : Text) (doc : List Element) : QueryResult :=
  let v := (selector.drop selectorHead.length).take
    (selector.length - (selectorHead.length + selectorTail.length))
  if selector = selectorHead ++ v ++ selectorTail ∧ v.all plainChar = true then
    match firstPanel v doc with
    | some j => .found j
    | none => .null
  else
    .syntaxError

/-- Applies `f` to the element at place `i`. -/
def modifyAt {α : Type} (f : α → α) : Nat → List α → List α
  | _, [] => []
  | 0, a :: l => f a :: l
  | i + 1, a :: l => a :: modifyAt f i l

/-- The body of the loop of lines 86-89, which runs over `tabs` only. -/
def deselectTab (e : Element) : Element :=
  if e.installTab then { e with active := false, ariaSelected := some "false" } else e

/-- The body of the loop of line 90, which runs over `panels` only. -/
def deselectPanel (e : Element) : Element :=
  if e.installPanel then { e with active := false } else e

/-- Lines 91-92 on the clicked tab. -/
def selectTab (e : Element) : Element :=
  { e with active := true, ariaSelected := some "true" }

/-- The call `panel.classList.add('active')` of line 94. -/
def activate (e : Element) : Element :=
  { e with active := true }

/-- The click handler of lines 84-95 on the element at place `i`, which has the
handler only if it is in `tabs`. When the query throws, the handler ends there
and the document stays as lines 86-92 left it. -/
def tabClick (querySelector : Text → List Element → QueryResult) (i : Nat)
    (doc : List Element) : List Element :=
  match doc[i]? with
  | none => doc
  | some this =>
    if this.installTab then
      let target := this.dataTab
      let doc1 := doc.map deselectTab
      let doc2 := doc1.map deselectPanel
      let doc3 := modifyAt selectTab i doc2
      match querySelector (selectorText target) doc3 with
      | .found j => modifyAt activate j doc3
      | .null => doc3
      | .syntaxError => doc3
    else
      doc

/-- The element at place `j` after a click on the tab at place `i`, when the
query returned the element at place `q`, or nothing. -/
def clicked (i : Nat) (q : Option Nat) (j : Nat) (e : Element) : Element :=
  let e1 := deselectPanel (deselectTab e)
  let e2 := if j = i then selectTab e1 else e1
  if q = some j then activate e2 else e2

/-- The install panels that carry the class `active`. -/
def activePanels (doc : List Element) : List Element :=
  doc.filter fun e => e.installPanel && e.active

/-- The install tabs that carry the class `active`. -/
def activeTabs (doc : List Element) : List Element :=
  doc.filter fun e => e.installTab && e.active

/-- An install tab with the given identifier. -/
def mkTab (id : Text) (active : Bool) : Element :=
  { installTab := true, installPanel := false, dataTab := some id, dataPanel := none,
    active := active, ariaSelected := some (if active then "true" else "false") }

/-- An install panel with the given identifier. -/
def mkPanel (id : Text) (active : Bool) : Element :=
  { installTab := false, installPanel := true, dataTab := none, dataPanel := some id,
    active := active, ariaSelected := none }

/-- Three tabs and their three panels, the first of each active. -/
def threeTabs : List Element :=
  [mkTab ['b', 'r', 'e', 'w'] true, mkTab ['g', 'o'] false, mkTab ['s', 'r', 'c'] false,
   mkPanel ['b', 'r', 'e', 'w'] true, mkPanel ['g', 'o'] false, mkPanel ['s', 'r', 'c'] false]

/-- Two tabs of which the second has no panel. -/
def orphanTab : List Element :=
  [mkTab ['b', 'r', 'e', 'w'] true, mkTab ['g', 'o'] false, mkPanel ['b', 'r', 'e', 'w'] true]

/-- The outcome of `Math.random` that is 0 at every call. -/
def zeros : Nat → Nat := fun _ => 0

/-! # Theorems -/

/-! ### The invariant of the sequencer -/

theorem getElem?_succ_mod {script : List Demo} {i : Nat} {d : Demo}
    (h : script[i]? = some d) : ∃ d', script[(i + 1) % script.length]? = some d' := by
  have hlt : i < script.length := by
    by_contra hc
    rw [List.getElem?_eq_none (Nat.le_of_not_lt hc)] at h
    cases h
  have hpos : 0 < script.length := Nat.lt_of_le_of_lt (Nat.zero_le _) hlt
  have hm : (i + 1) % script.length < script.length := Nat.mod_lt _ hpos
  exact ⟨script[(i + 1) % script.length], List.getElem?_eq_getElem hm⟩

theorem inv_init {script : List Demo} (h : script ≠ []) : Inv script init := by
  obtain ⟨d, ds, rfl⟩ := List.exists_cons_of_ne_nil h
  exact ⟨d, by simp [init, setTimeout], Nat.zero_le _, rfl, Or.inl ⟨rfl, rfl, 800, rfl⟩⟩

theorem inv_fire {script : List Demo} {s s' : Seq} {r : Nat}
    (hinv : Inv script s) (hf : fire script r s = some s') : Inv script s' := by
  obtain ⟨d, hd, hc, hcmd, hph⟩ := hinv
  rcases hph with ⟨hty, hout, t, ht⟩ | ⟨hty, hci, hout, t, ht⟩ | ⟨hty, hci, hout, t, ht⟩
  · by_cases hle : s.charIdx ≤ d.cmd.length
    · simp [fire, ht, nextTimer, runCallback, typeNext, hty, hd, hle, setTimeout] at hf
      subst hf
      exact ⟨d, hd, by simpa using hle, by simp, Or.inl ⟨rfl, hout, _, rfl⟩⟩
    · simp [fire, ht, nextTimer, runCallback, typeNext, hty, hd, hle, setTimeout] at hf
      subst hf
      exact ⟨d, hd, hc, hcmd, Or.inr (Or.inl ⟨rfl, by simp; omega, hout, _, rfl⟩)⟩
  · simp [fire, ht, nextTimer, runCallback, setTimeout] at hf
    subst hf
    exact ⟨d, hd, hc, hcmd, Or.inr (Or.inr ⟨hty, hci, rfl, _, rfl⟩)⟩
  · obtain ⟨d', hd'⟩ := getElem?_succ_mod hd
    simp [fire, ht, nextTimer, runCallback, typeNext, hty, setTimeout] at hf
    subst hf
    exact ⟨d', hd', Nat.zero_le _, by simp, Or.inl ⟨rfl, rfl, _, rfl⟩⟩

/-- Under the invariant a timer turn always succeeds. -/
theorem fire_of_inv {script : List Demo} {s : Seq} (r : Nat) (hinv : Inv script s) :
    ∃ s', fire script r s = some s' := by
  obtain ⟨d, hd, hc, hcmd, hph⟩ := hinv
  rcases hph with ⟨hty, hout, t, ht⟩ | ⟨hty, hci, hout, t, ht⟩ | ⟨hty, hci, hout, t, ht⟩
  · by_cases hle : s.charIdx ≤ d.cmd.length
    · simp [fire, ht, nextTimer, runCallback, typeNext, hty, hd, hle]
    · simp [fire, ht, nextTimer, runCallback, typeNext, hty, hd, hle]
  · simp [fire, ht, nextTimer, runCallback]
  · simp [fire, ht, nextTimer, runCallback, typeNext, hty]

theorem run_succ (script : List Demo) (rs : Nat → Nat) (m : Nat) {s : Seq}
    (h : run script rs m = some s) :
    run script rs (m + 1) = fire script (rs m) s := by
  simp [run, h]

theorem inv_run {script : List Demo} (h : script ≠ []) (rs : Nat → Nat) :
    ∀ (m : Nat) (s : Seq), run script rs m = some s → Inv script s := by
  intro m
  induction m with
  | zero =>
    intro s hs
    simp [run] at hs
    subst hs
    exact inv_init h
  | succ m ih =>
    intro s hs
    cases hm : run script rs m with
    | none => simp [run, hm] at hs
    | some a =>
      rw [run_succ script rs m hm] at hs
      exact inv_fire (ih a hm) hs

/-- The sequencer never stops: every number of timer turns is reached. -/
theorem run_total {script : List Demo} (h : script ≠ []) (rs : Nat → Nat) :
    ∀ m : Nat, ∃ s, run script rs m = some s := by
  intro m
  induction m with
  | zero => exact ⟨init, rfl⟩
  | succ m ih =>
    obtain ⟨a, ha⟩ := ih
    obtain ⟨b, hb⟩ := fire_of_inv (rs m) (inv_run h rs m a ha)
    exact ⟨b, by rw [run_succ script rs m ha, hb]⟩

/-! ### The turns of one demo, state by state -/

theorem fire_typing {script : List Demo} {i c : Nat} {d : Demo} (r n t : Nat)
    (hd : script[i]? = some d) (hc : c ≤ d.cmd.length) :
    fire script r (typingState i c d n t)
      = some (typingState i (c + 1) d t (t + (32 + r))) := by
  simp [fire, typingState, nextTimer, runCallback, typeNext, hd, hc, setTimeout]

theorem fire_leave {script : List Demo} {i : Nat} {d : Demo} (r n t : Nat)
    (hd : script[i]? = some d) :
    fire script r (typingState i (d.cmd.length + 1) d n t)
      = some (settleState i d t (t + 300)) := by
  simp [fire, typingState, settleState, nextTimer, runCallback, typeNext, hd, setTimeout]

theorem fire_render (script : List Demo) (i : Nat) (d : Demo) (r n t : Nat) :
    fire script r (settleState i d n t) = some (dwellState i d t (t + 2200)) := by
  simp [fire, settleState, dwellState, nextTimer, runCallback, setTimeout, pauseAfter]

theorem fire_reset (script : List Demo) (i : Nat) (d d' : Demo) (r n t : Nat) :
    fire script r (dwellState i d n t)
      = some (typingState ((i + 1) % script.length) 0 d' t (t + 400)) := by
  simp [fire, typingState, dwellState, nextTimer, runCallback, typeNext, setTimeout]

/-- The typing turns of a demo: `j` turns after its start the first `j - 1`
characters are on display and the next `typeNext` is pending. -/
theorem run_typing {script : List Demo} {rs : Nat → Nat} {m i n t : Nat} {d : Demo}
    (hd : script[i]? = some d) (h0 : run script rs m = some (typingState i 0 d n t)) :
    ∀ j : Nat, j ≤ d.cmd.length + 1 →
      run script rs (m + j)
        = some (typingState i j d (clockAfter rs m n t j) (t + typedFor rs m j)) := by
  intro j
  induction j with
  | zero => intro _; simpa [clockAfter, typedFor] using h0
  | succ j ih =>
    intro hj
    have hprev := ih (by omega)
    have hstep := run_succ script rs (m + j) hprev
    rw [fire_typing (rs (m + j)) _ _ hd (by omega)] at hstep
    rw [← Nat.add_assoc, hstep]
    simp [clockAfter, typedFor, Nat.add_assoc]

theorem run_settle {script : List Demo} {rs : Nat → Nat} {m i n t : Nat} {d : Demo}
    (hd : script[i]? = some d) (h0 : run script rs m = some (typingState i 0 d n t)) :
    run script rs (m + d.cmd.length + 2)
      = some (settleState i d (leaveTime rs m t d) (leaveTime rs m t d + 300)) := by
  have h1 := run_typing hd h0 (d.cmd.length + 1) (Nat.le_refl _)
  have h2 := run_succ script rs _ h1
  rw [fire_leave _ _ _ hd] at h2
  exact h2

theorem run_dwell {script : List Demo} {rs : Nat → Nat} {m i n t : Nat} {d : Demo}
    (hd : script[i]? = some d) (h0 : run script rs m = some (typingState i 0 d n t)) :
    run script rs (m + d.cmd.length + 3)
      = some (dwellState i d (leaveTime rs m t d + 300) (leaveTime rs m t d + 300 + 2200)) := by
  have h2 := run_succ script rs _ (run_settle hd h0)
  rw [fire_render] at h2
  exact h2

theorem run_next {script : List Demo} {rs : Nat → Nat} {m i n t : Nat} {d : Demo}
    (hd : script[i]? = some d) (h0 : run script rs m = some (typingState i 0 d n t))
    (d' : Demo) :
    run script rs (m + d.cmd.length + 4)
      = some (typingState ((i + 1) % script.length) 0 d'
          (leaveTime rs m t d + 300 + 2200) (leaveTime rs m t d + 300 + 2200 + 400)) := by
  have h2 := run_succ script rs _ (run_dwell hd h0)
  rw [fire_reset script i d d'] at h2
  exact h2

theorem isReset_of_typing {script : List Demo} {rs : Nat → Nat} {i : Nat} {a : Seq}
    (ha : run script rs i = some a) (hty : a.typing = true) :
    isReset script rs i = false := by
  unfold isReset
  rw [ha]
  cases run script rs (i + 1) <;> simp [hty]

theorem isReset_of_paused {script : List Demo} {rs : Nat → Nat} {i : Nat} {b : Seq}
    (hb : run script rs (i + 1) = some b) (hty : b.typing = false) :
    isReset script rs i = false := by
  unfold isReset
  rw [hb]
  cases run script rs i <;> simp [hty]

theorem resetCount_succ (script : List Demo) (rs : Nat → Nat) (m : Nat) :
    resetCount script rs (m + 1)
      = resetCount script rs m + (if isReset script rs m then 1 else 0) := rfl

theorem resetCount_typing {script : List Demo} {rs : Nat → Nat} {m i n t : Nat} {d : Demo}
    (hd : script[i]? = some d) (h0 : run script rs m = some (typingState i 0 d n t)) :
    ∀ j : Nat, j ≤ d.cmd.length + 2 →
      resetCount script rs (m + j) = resetCount script rs m := by
  intro j
  induction j with
  | zero => intro _; rfl
  | succ j ih =>
    intro hj
    have hnot : isReset script rs (m + j) = false :=
      isReset_of_typing (run_typing hd h0 j (by omega)) rfl
    rw [← Nat.add_assoc, resetCount_succ, hnot, ih (by omega)]
    rfl

theorem resetCount_next {script : List Demo} {rs : Nat → Nat} {m i n t : Nat} {d : Demo}
    (hd : script[i]? = some d) (h0 : run script rs m = some (typingState i 0 d n t)) :
    resetCount script rs (m + d.cmd.length + 4) = resetCount script rs m + 1 := by
  have h2 : resetCount script rs (m + d.cmd.length + 2) = resetCount script rs m := by
    rw [Nat.add_assoc]
    exact resetCount_typing hd h0 (d.cmd.length + 2) (Nat.le_refl _)
  have hs : isReset script rs (m + d.cmd.length + 2) = false :=
    isReset_of_paused (run_dwell hd h0) rfl
  have hr : isReset script rs (m + d.cmd.length + 3) = true := by
    unfold isReset
    rw [run_dwell hd h0, run_next hd h0 d]
    rfl
  have e3 : resetCount script rs (m + d.cmd.length + 3) = resetCount script rs m := by
    rw [resetCount_succ script rs (m + d.cmd.length + 2), hs, h2]
    rfl
  rw [resetCount_succ script rs (m + d.cmd.length + 3), hr, e3]
  rfl

theorem isReset_last {script : List Demo} {rs : Nat → Nat} {m i n t : Nat} {d : Demo}
    (hd : script[i]? = some d) (h0 : run script rs m = some (typingState i 0 d n t)) :
    isReset script rs (m + d.cmd.length + 3) = true := by
  unfold isReset
  rw [run_dwell hd h0, run_next hd h0 d]
  rfl

/-- The start of the `k`-th pass: after `turnsTo script k` turns the sequencer
is about to type demo `k % script.length` on empty displays, having made `k`
resets, the last of them in the turn just taken. -/
theorem run_turnsTo {script : List Demo} (h : script ≠ []) (rs : Nat → Nat) :
    ∀ k : Nat, ∃ d n t, script[k % script.length]? = some d
      ∧ run script rs (turnsTo script k) = some (typingState (k % script.length) 0 d n t)
      ∧ resetCount script rs (turnsTo script k) = k
      ∧ (0 < k → isReset script rs (turnsTo script k - 1) = true) := by
  intro k
  induction k with
  | zero =>
    obtain ⟨d, ds, rfl⟩ := List.exists_cons_of_ne_nil h
    exact ⟨d, 0, 800, by simp, rfl, rfl, fun hk => absurd hk (Nat.lt_irrefl 0)⟩
  | succ k ih =>
    obtain ⟨d, n, t, hd, hrun, hcnt, _⟩ := ih
    obtain ⟨d', hd'⟩ := getElem?_succ_mod hd
    have hmod : (k % script.length + 1) % script.length = (k + 1) % script.length :=
      Nat.mod_add_mod k script.length 1
    rw [hmod] at hd'
    have hturns : turnsTo script (k + 1) = turnsTo script k + d.cmd.length + 4 := by
      simp [turnsTo, hd, turnsOf, Nat.add_assoc]
    refine ⟨d', leaveTime rs (turnsTo script k) t d + 300 + 2200,
      leaveTime rs (turnsTo script k) t d + 300 + 2200 + 400, hd', ?_, ?_, ?_⟩
    · rw [hturns, run_next hd hrun d', hmod]
    · rw [hturns, resetCount_next hd hrun, hcnt]
    · intro _
      rw [hturns]
      exact isReset_last hd hrun

/-! ### The claims about the sequencer -/

/-- C1: over a non-empty script, whatever `Math.random` returns, the turn
numbered `turnsTo script k` exists, it is the `k`-th Paused -> Typing reset (it
is a reset for `k > 0`, and `k` resets have happened up to it), and after it the
demo index is `k mod n`, the character index is 0, the typing phase is set and
both displays are empty; after one pass over all `n` demos the demo index is
back at 0. -/
theorem sequencer_after_kth_reset (script : List Demo) (rs : Nat → Nat)
    (h : script ≠ []) :
    (∀ k : Nat, ∃ s, run script rs (turnsTo script k) = some s
      ∧ resetCount script rs (turnsTo script k) = k
      ∧ (0 < k → isReset script rs (turnsTo script k - 1) = true)
      ∧ s.demoIdx = k % script.length ∧ s.charIdx = 0 ∧ s.typing = true
      ∧ s.cmdText = [] ∧ s.outText = [])
    ∧ (∃ s, run script rs (turnsTo script script.length) = some s
      ∧ resetCount script rs (turnsTo script script.length) = script.length
      ∧ s.demoIdx = 0 ∧ s.cmdText = [] ∧ s.outText = []) := by
  have key : ∀ k : Nat, ∃ s, run script rs (turnsTo script k) = some s
      ∧ resetCount script rs (turnsTo script k) = k
      ∧ (0 < k → isReset script rs (turnsTo script k - 1) = true)
      ∧ s.demoIdx = k % script.length ∧ s.charIdx = 0 ∧ s.typing = true
      ∧ s.cmdText = [] ∧ s.outText = [] := by
    intro k
    obtain ⟨d, n, t, _, hrun, hcnt, hlast⟩ := run_turnsTo h rs k
    exact ⟨_, hrun, hcnt, hlast, rfl, rfl, rfl, by simp [typingState], rfl⟩
  refine ⟨key, ?_⟩
  obtain ⟨s, hrun, hcnt, _, hidx, _, _, hcmd, hout⟩ := key script.length
  exact ⟨s, hrun, hcnt, by rw [hidx, Nat.mod_self], hcmd, hout⟩

/-- C1 on the script `["a","b"]`: the second reset is turn 10, and after it the
demo index is 0 again with both displays empty. -/
theorem sequencer_after_kth_reset_witness :
    scriptAB ≠ [] ∧
    ((∀ k : Nat, ∃ s, run scriptAB zeros (turnsTo scriptAB k) = some s
      ∧ resetCount scriptAB zeros (turnsTo scriptAB k) = k
      ∧ (0 < k → isReset scriptAB zeros (turnsTo scriptAB k - 1) = true)
      ∧ s.demoIdx = k % scriptAB.length ∧ s.charIdx = 0 ∧ s.typing = true
      ∧ s.cmdText = [] ∧ s.outText = [])
    ∧ (∃ s, run scriptAB zeros (turnsTo scriptAB scriptAB.length) = some s
      ∧ resetCount scriptAB zeros (turnsTo scriptAB scriptAB.length) = scriptAB.length
      ∧ s.demoIdx = 0 ∧ s.cmdText = [] ∧ s.outText = [])) :=
  ⟨by decide, sequencer_after_kth_reset scriptAB zeros (by decide)⟩

/-- C7: in every state the sequencer reaches over a non-empty script exactly
one timer is pending; a callback that returns adds exactly one timer to the
pending ones, whatever the state it runs in; and from a reachable state the next
turn always succeeds and again leaves exactly one timer pending, so the chain
has no last state. -/
theorem one_pending_timer (script : List Demo) (rs : Nat → Nat) (m : Nat) (s : Seq)
    (h : script ≠ []) (hrun : run script rs m = some s) :
    s.timers.length = 1
    ∧ (∀ (cb : Callback) (r : Nat) (a b : Seq),
        runCallback script r cb a = some b → ∃ t, b.timers = a.timers ++ [t])
    ∧ (∀ r : Nat, ∃ s', fire script r s = some s' ∧ s'.timers.length = 1) := by
  have hlen : ∀ a : Seq, Inv script a → a.timers.length = 1 := by
    intro a ha
    obtain ⟨d, _, _, _, hph⟩ := ha
    rcases hph with ⟨_, _, t, ht⟩ | ⟨_, _, _, t, ht⟩ | ⟨_, _, _, t, ht⟩ <;> simp [ht]
  have hinv := inv_run h rs m s hrun
  refine ⟨hlen s hinv, ?_, ?_⟩
  · intro cb r a b hcb
    cases cb with
    | typeNext =>
      simp only [runCallback, typeNext] at hcb
      split at hcb
      · split at hcb
        · cases hcb
        · split at hcb
          · cases hcb; exact ⟨_, rfl⟩
          · cases hcb; exact ⟨_, rfl⟩
      · cases hcb; exact ⟨_, rfl⟩
    | render d =>
      simp only [runCallback] at hcb
      cases hcb; exact ⟨_, rfl⟩
  · intro r
    obtain ⟨s', hs'⟩ := fire_of_inv r hinv
    exact ⟨s', hs', hlen s' (inv_fire hinv hs')⟩

/-- C7 on the script of the site, in its start state. -/
theorem one_pending_timer_witness :
    demos ≠ [] ∧ run demos zeros 0 = some init ∧
    (init.timers.length = 1
      ∧ (∀ (cb : Callback) (r : Nat) (a b : Seq),
          runCallback demos r cb a = some b → ∃ t, b.timers = a.timers ++ [t])
      ∧ (∀ r : Nat, ∃ s', fire demos r init = some s' ∧ s'.timers.length = 1)) :=
  ⟨by decide, rfl, one_pending_timer demos zeros 0 init (by decide) rfl⟩

/-- C10: in every state the sequencer reaches over a non-empty script the demo
index is inside the script, the character index is at most the length of the
current command plus one, the command display is the prefix of the current
command of length character index minus one (truncated at 0), and the output
display is empty or the current output, and non-empty only with the typing phase
off and the whole command on display. -/
theorem sequencer_invariant (script : List Demo) (rs : Nat → Nat) (m : Nat) (s : Seq)
    (h : script ≠ []) (hrun : run script rs m = some s) :
    s.demoIdx < script.length
    ∧ ∃ d, script[s.demoIdx]? = some d
      ∧ s.charIdx ≤ d.cmd.length + 1
      ∧ s.cmdText = d.cmd.take (s.charIdx - 1)
      ∧ (s.outText = [] ∨ s.outText = d.output)
      ∧ (s.outText ≠ [] → s.typing = false ∧ s.cmdText = d.cmd) := by
  obtain ⟨d, hd, hc, hcmd, hph⟩ := inv_run h rs m s hrun
  have hlt : s.demoIdx < script.length := by
    by_contra hc'
    rw [List.getElem?_eq_none (Nat.le_of_not_lt hc')] at hd
    cases hd
  refine ⟨hlt, d, hd, hc, hcmd, ?_, ?_⟩
  · rcases hph with ⟨_, hout, _⟩ | ⟨_, _, hout, _⟩ | ⟨_, _, hout, _⟩
    · exact Or.inl hout
    · exact Or.inl hout
    · exact Or.inr hout
  · intro hne
    rcases hph with ⟨_, hout, _⟩ | ⟨_, _, hout, _⟩ | ⟨hty, hci, _, _⟩
    · exact absurd hout hne
    · exact absurd hout hne
    · exact ⟨hty, by rw [hcmd, hci]; simp⟩

/-- C10 on the script `["a","b"]` in the state that shows the output of the
first demo (four turns in). -/
theorem sequencer_invariant_witness :
    scriptAB ≠ [] ∧ run scriptAB zeros 4 = some (dwellState 0 ⟨['a'], ['x']⟩ 1164 3364) ∧
    ((dwellState 0 ⟨['a'], ['x']⟩ 1164 3364).demoIdx < scriptAB.length
    ∧ ∃ d, scriptAB[(dwellState 0 ⟨['a'], ['x']⟩ 1164 3364).demoIdx]? = some d
      ∧ (dwellState 0 ⟨['a'], ['x']⟩ 1164 3364).charIdx ≤ d.cmd.length + 1
      ∧ (dwellState 0 ⟨['a'], ['x']⟩ 1164 3364).cmdText
          = d.cmd.take ((dwellState 0 ⟨['a'], ['x']⟩ 1164 3364).charIdx - 1)
      ∧ ((dwellState 0 ⟨['a'], ['x']⟩ 1164 3364).outText = []
          ∨ (dwellState 0 ⟨['a'], ['x']⟩ 1164 3364).outText = d.output)
      ∧ ((dwellState 0 ⟨['a'], ['x']⟩ 1164 3364).outText ≠ [] →
          (dwellState 0 ⟨['a'], ['x']⟩ 1164 3364).typing = false
          ∧ (dwellState 0 ⟨['a'], ['x']⟩ 1164 3364).cmdText = d.cmd)) :=
  ⟨by decide, by decide,
    sequencer_invariant scriptAB zeros 4 (dwellState 0 ⟨['a'], ['x']⟩ 1164 3364)
      (by decide) (by decide)⟩

/-! ### Typing turns -/

theorem typing_shape {script : List Demo} {s : Seq} (hinv : Inv script s)
    (hty : s.typing = true) :
    ∃ d t, script[s.demoIdx]? = some d ∧ s.charIdx ≤ d.cmd.length + 1
      ∧ s = typingState s.demoIdx s.charIdx d s.now t := by
  obtain ⟨d, hd, hc, hcmd, hph⟩ := hinv
  rcases hph with ⟨_, hout, t, ht⟩ | ⟨hf, _⟩ | ⟨hf, _⟩
  · refine ⟨d, t, hd, hc, ?_⟩
    cases s
    simp only [typingState] at *
    subst hty hout ht hcmd
    rfl
  · rw [hty] at hf; cases hf
  · rw [hty] at hf; cases hf

theorem run_typing_from {script : List Demo} {rs : Nat → Nat} {m i c n t : Nat} {d : Demo}
    (hd : script[i]? = some d) (h0 : run script rs m = some (typingState i c d n t)) :
    ∀ j : Nat, c + j ≤ d.cmd.length + 1 →
      ∃ n' t', run script rs (m + j) = some (typingState i (c + j) d n' t') := by
  intro j
  induction j with
  | zero => intro _; exact ⟨n, t, h0⟩
  | succ j ih =>
    intro hj
    obtain ⟨n', t', hprev⟩ := ih (by omega)
    have hstep := run_succ script rs (m + j) hprev
    rw [fire_typing (rs (m + j)) n' t' hd (by omega)] at hstep
    exact ⟨_, _, hstep⟩

/-- C8, as the code has it: a turn taken in the Typing state at character
index 0 shows the empty prefix and appends nothing; at a character index from 1
to the length of the command it appends exactly the next character of the
command to the command display; typing goes on as long as the display is not
the whole command, and the turn leaves the Typing state exactly when the
character index exceeds the length of the command, with the whole command on
display and unchanged by that turn; and from every Typing state the turns reach
a Typing state of the same demo that displays the whole command. -/
theorem typing_turn (script : List Demo) (rs : Nat → Nat) (m : Nat) (s : Seq)
    (h : script ≠ []) (hrun : run script rs m = some s) (hty : s.typing = true) :
    ∃ d s', script[s.demoIdx]? = some d ∧ run script rs (m + 1) = some s'
      ∧ (s.charIdx = 0 → s'.cmdText = [] ∧ s'.typing = true)
      ∧ (1 ≤ s.charIdx → s.charIdx ≤ d.cmd.length →
          ∃ c, d.cmd[s.charIdx - 1]? = some c ∧ s'.cmdText = s.cmdText ++ [c]
            ∧ s'.typing = true)
      ∧ (s.cmdText ≠ d.cmd → s'.typing = true)
      ∧ (s'.typing = false ↔ d.cmd.length < s.charIdx)
      ∧ (s'.typing = false → s'.cmdText = d.cmd ∧ s'.cmdText = s.cmdText)
      ∧ ∃ j sf, run script rs (m + j) = some sf ∧ sf.demoIdx = s.demoIdx
          ∧ sf.typing = true ∧ sf.cmdText = d.cmd := by
  obtain ⟨d, t, hd, hc, hs⟩ := typing_shape (inv_run h rs m s hrun) hty
  have hrun' : run script rs m = some (typingState s.demoIdx s.charIdx d s.now t) := by
    rw [hrun]; exact congrArg some hs
  have hreach : ∃ j sf, run script rs (m + j) = some sf ∧ sf.demoIdx = s.demoIdx
      ∧ sf.typing = true ∧ sf.cmdText = d.cmd := by
    obtain ⟨n', t', hj⟩ := run_typing_from hd hrun' (d.cmd.length + 1 - s.charIdx) (by omega)
    refine ⟨_, _, hj, rfl, rfl, ?_⟩
    have e : s.charIdx + (d.cmd.length + 1 - s.charIdx) - 1 = d.cmd.length := by omega
    simp [typingState, e]
  have hcmd : s.cmdText = d.cmd.take (s.charIdx - 1) := by rw [hs]; rfl
  by_cases hle : s.charIdx ≤ d.cmd.length
  · have hstep := run_succ script rs m hrun'
    rw [fire_typing (rs m) s.now t hd hle] at hstep
    refine ⟨d, _, hd, hstep, ?_, ?_, ?_, ?_, ?_, hreach⟩
    · intro h0
      simp [typingState, h0]
    · intro h1 _
      have hlt : s.charIdx - 1 < d.cmd.length := by omega
      refine ⟨d.cmd[s.charIdx - 1], List.getElem?_eq_getElem hlt, ?_, rfl⟩
      have e : s.charIdx + 1 - 1 = (s.charIdx - 1) + 1 := by omega
      simp only [typingState, e]
      rw [List.take_succ, List.getElem?_eq_getElem hlt, hcmd]
      rfl
    · intro _; rfl
    · simp [typingState]; omega
    · intro hf; simp [typingState] at hf
  · have hci : s.charIdx = d.cmd.length + 1 := by omega
    rw [hci] at hrun'
    have hstep := run_succ script rs m hrun'
    rw [fire_leave (rs m) s.now t hd] at hstep
    refine ⟨d, _, hd, hstep, ?_, ?_, ?_, ?_, ?_, hreach⟩
    · intro h0; omega
    · intro _ h2; omega
    · intro hne
      exact absurd (by rw [hcmd, hci]; simp) hne
    · simp [settleState]; omega
    · intro _
      refine ⟨rfl, ?_⟩
      rw [hcmd, hci]; simp [settleState]

/-- C8, amended, on the script `["a","b"]`, at the three typing turns of the
command `a`: the first (character index 0) shows the empty prefix and keeps
typing; the second (character index 1) appends the character `a` to the empty
display and keeps typing; the third (character index 2, past the length 1)
leaves the Typing state with `a` on display. -/
theorem typing_turn_witness :
    scriptAB ≠ []
    ∧ (run scriptAB zeros 0 = some init ∧ init.typing = true ∧ init.charIdx = 0
        ∧ ∃ s', run scriptAB zeros (0 + 1) = some s' ∧ s'.cmdText = [] ∧ s'.typing = true)
    ∧ (run scriptAB zeros 1 = some (typingState 0 1 ⟨['a'], ['x']⟩ 800 832)
        ∧ (typingState 0 1 ⟨['a'], ['x']⟩ 800 832).typing = true
        ∧ (typingState 0 1 ⟨['a'], ['x']⟩ 800 832).charIdx = 1
        ∧ (typingState 0 1 ⟨['a'], ['x']⟩ 800 832).cmdText = []
        ∧ ∃ s', run scriptAB zeros (1 + 1) = some s'
            ∧ s'.cmdText = (typingState 0 1 ⟨['a'], ['x']⟩ 800 832).cmdText ++ ['a']
            ∧ s'.typing = true)
    ∧ (run scriptAB zeros 2 = some (typingState 0 2 ⟨['a'], ['x']⟩ 832 864)
        ∧ (typingState 0 2 ⟨['a'], ['x']⟩ 832 864).typing = true
        ∧ (typingState 0 2 ⟨['a'], ['x']⟩ 832 864).charIdx = 2
        ∧ ∃ s', run scriptAB zeros (2 + 1) = some s' ∧ s'.typing = false
            ∧ s'.cmdText = ['a']
            ∧ s'.cmdText = (typingState 0 2 ⟨['a'], ['x']⟩ 832 864).cmdText) := by
  refine ⟨by decide, ⟨rfl, rfl, rfl, ?_⟩, ⟨by decide, rfl, rfl, rfl, ?_⟩,
    ⟨by decide, rfl, rfl, ?_⟩⟩
  · obtain ⟨d, s', _, hrun, h0, _⟩ :=
      typing_turn scriptAB zeros 0 init (by decide) rfl rfl
    exact ⟨s', hrun, h0 rfl⟩
  · obtain ⟨d, s', hd, hrun, _, happ, _⟩ :=
      typing_turn scriptAB zeros 1 (typingState 0 1 ⟨['a'], ['x']⟩ 800 832)
        (by decide) (by decide) rfl
    have hd' : d = ⟨['a'], ['x']⟩ := by
      simpa [scriptAB, typingState] using hd.symm
    subst hd'
    obtain ⟨c, hc, happ', hty⟩ := happ (by decide) (by decide)
    have hc' : c = 'a' := by simpa [typingState] using hc.symm
    subst hc'
    exact ⟨s', hrun, happ', hty⟩
  · obtain ⟨d, s', hd, hrun, _, _, _, hiff, hfalse, _⟩ :=
      typing_turn scriptAB zeros 2 (typingState 0 2 ⟨['a'], ['x']⟩ 832 864)
        (by decide) (by decide) rfl
    have hd' : d = ⟨['a'], ['x']⟩ := by
      simpa [scriptAB, typingState] using hd.symm
    subst hd'
    have hty : s'.typing = false := hiff.mpr (by decide)
    exact ⟨s', hrun, hty, (hfalse hty).1, (hfalse hty).2⟩

/-- C8 as stated fails on the first turn over the script `["a","b"]`: the
sequencer is in the Typing state, the command display is empty before the turn
and still empty after it, so no character was appended. -/
theorem typing_turn_counterexample :
    run scriptAB zeros 0 = some init ∧ init.typing = true ∧
    ∃ s', run scriptAB zeros 1 = some s' ∧ ¬ ∃ c, s'.cmdText = init.cmdText ++ [c] :=
  ⟨rfl, rfl, typingState 0 1 ⟨['a'], ['x']⟩ 800 832, by decide, by
    rintro ⟨c, hc⟩
    simp [typingState, init, setTimeout] at hc⟩

/-! ### Timing -/

/-- C9, as the code has it: for the `k`-th demo of the run, started at turn
`m = turnsTo script k` and of command length `L`, whatever the inter-character
delays `32 + rs i` in [32, 60): up to turn `m + L` the display holds the prefix
of length `j - 1` after turn `m + j`, which is not the whole command when the
command is not empty; turn `m + L + 1` puts the whole command on display; the
turn that leaves the Typing state follows one inter-character delay later; the
output is rendered in full exactly 300 units after that leaving turn (so between
332 and 359 units after the command became fully displayed); both displays are
cleared exactly 2200 units after the rendering; the first typing turn of the
next demo comes exactly 400 units after the clearing; and the very first typing
turn comes at time 800. -/
theorem sequencer_timing (script : List Demo) (rs : Nat → Nat) (k : Nat)
    (h : script ≠ []) (hrs : ∀ i, rs i < 28) :
    (∃ s1, run script rs 1 = some s1 ∧ s1.now = 800 ∧ s1.typing = true ∧ s1.charIdx = 1)
    ∧ ∃ d sFull sLeave sRender sClear sNext,
        script[k % script.length]? = some d
      ∧ (∀ j, j ≤ d.cmd.length → ∃ sj, run script rs (turnsTo script k + j) = some sj
          ∧ sj.typing = true ∧ sj.outText = []
          ∧ sj.cmdText = d.cmd.take (j - 1)
          ∧ (0 < d.cmd.length → sj.cmdText ≠ d.cmd))
      ∧ run script rs (turnsTo script k + d.cmd.length + 1) = some sFull
      ∧ sFull.cmdText = d.cmd ∧ sFull.typing = true ∧ sFull.outText = []
      ∧ run script rs (turnsTo script k + d.cmd.length + 2) = some sLeave
      ∧ sLeave.typing = false ∧ sLeave.outText = []
      ∧ sLeave.now = sFull.now + (32 + rs (turnsTo script k + d.cmd.length))
      ∧ run script rs (turnsTo script k + d.cmd.length + 3) = some sRender
      ∧ sRender.outText = d.output ∧ sRender.cmdText = d.cmd
      ∧ sRender.now = sLeave.now + 300
      ∧ sFull.now + 332 ≤ sRender.now ∧ sRender.now < sFull.now + 360
      ∧ run script rs (turnsTo script k + d.cmd.length + 4) = some sClear
      ∧ sClear.cmdText = [] ∧ sClear.outText = []
      ∧ sClear.now = sRender.now + 2200
      ∧ run script rs (turnsTo script k + d.cmd.length + 5) = some sNext
      ∧ sNext.demoIdx = (k + 1) % script.length ∧ sNext.typing = true
      ∧ sNext.charIdx = 1
      ∧ sNext.now = sClear.now + 400 := by
  constructor
  · obtain ⟨d, n, t, hd, hrun, _⟩ := run_turnsTo h rs 0
    have h1 := run_typing hd hrun 1 (by omega)
    obtain ⟨d0, ds, rfl⟩ := List.exists_cons_of_ne_nil h
    simp only [turnsTo, run, Option.some.injEq] at hrun
    have ht : t = 800 := by
      have := congrArg (fun a => a.timers.map (fun u => u.fireAt)) hrun
      simpa [init, setTimeout, typingState] using this.symm
    exact ⟨_, h1, by simp [typingState, clockAfter, typedFor, ht], rfl, rfl⟩
  · obtain ⟨d, n, t, hd, hrun, _⟩ := run_turnsTo h rs k
    obtain ⟨d', hd'⟩ := getElem?_succ_mod hd
    have hfull := run_typing hd hrun (d.cmd.length + 1) (Nat.le_refl _)
    rw [← Nat.add_assoc] at hfull
    have hnext := run_succ script rs _ (run_next hd hrun d')
    rw [fire_typing (rs _) _ _ hd' (Nat.zero_le _)] at hnext
    have hb := hrs (turnsTo script k + d.cmd.length)
    have hpre : ∀ j, j ≤ d.cmd.length → ∃ sj, run script rs (turnsTo script k + j) = some sj
        ∧ sj.typing = true ∧ sj.outText = []
        ∧ sj.cmdText = d.cmd.take (j - 1)
        ∧ (0 < d.cmd.length → sj.cmdText ≠ d.cmd) := by
      intro j hj
      refine ⟨_, run_typing hd hrun j (by omega), rfl, rfl, rfl, ?_⟩
      intro hpos hc
      have hlen := congrArg List.length hc
      simp only [typingState, List.length_take] at hlen
      omega
    refine ⟨d, _, _, _, _, _, hd, hpre, hfull, by simp [typingState], rfl, rfl,
      run_settle hd hrun, rfl, rfl, ?_, run_dwell hd hrun, rfl, rfl, rfl, ?_, ?_,
      run_next hd hrun d', by simp [typingState], rfl, rfl, hnext,
      Nat.mod_add_mod k script.length 1, rfl, rfl, rfl⟩
    · simp [settleState, typingState, clockAfter, leaveTime, typedFor, Nat.add_assoc]
    · simp [dwellState, typingState, clockAfter, leaveTime, typedFor]
      omega
    · simp [dwellState, typingState, clockAfter, leaveTime, typedFor]
      omega

/-- C9, amended, on the script `["a","b"]` with every inter-character delay 32,
for the first demo: the command `a` is not on display after turns 0 and 1, it is
after turn 2 (time 832), the Typing state is left by turn 3 (time 864), the
output is rendered by turn 4 (time 1164), the displays are cleared by turn 5
(time 3364) and the next demo starts typing by turn 6 (time 3764). -/
theorem sequencer_timing_witness :
    scriptAB ≠ [] ∧ (∀ i, zeros i < 28)
    ∧ (∃ s1, run scriptAB zeros 1 = some s1 ∧ s1.now = 800 ∧ s1.typing = true
        ∧ s1.charIdx = 1)
    ∧ (∃ s0, run scriptAB zeros 0 = some s0 ∧ s0.cmdText ≠ ['a'])
    ∧ (∃ s1, run scriptAB zeros 1 = some s1 ∧ s1.cmdText ≠ ['a'])
    ∧ ∃ sFull sLeave sRender sClear sNext,
        run scriptAB zeros 2 = some sFull ∧ sFull.cmdText = ['a'] ∧ sFull.now = 832
      ∧ run scriptAB zeros 3 = some sLeave ∧ sLeave.typing = false
      ∧ sLeave.now = sFull.now + 32
      ∧ run scriptAB zeros 4 = some sRender ∧ sRender.outText = ['x']
      ∧ sRender.now = sLeave.now + 300
      ∧ sFull.now + 332 ≤ sRender.now ∧ sRender.now < sFull.now + 360
      ∧ run scriptAB zeros 5 = some sClear ∧ sClear.cmdText = [] ∧ sClear.outText = []
      ∧ sClear.now = sRender.now + 2200
      ∧ run scriptAB zeros 6 = some sNext ∧ sNext.demoIdx = 1 ∧ sNext.charIdx = 1
      ∧ sNext.now = sClear.now + 400 := by
  obtain ⟨hfirst, d, sFull, sLeave, sRender, sClear, sNext, hd, hpre, hF, hFc, _, _,
      hL, hLt, _, hLn, hR, hRo, _, hRn, hlo, hhi, hC, hCc, hCo, hCn, hN, hNi, _, hNc, hNn⟩ :=
    sequencer_timing scriptAB zeros 0 (by decide) (fun _ => by simp [zeros])
  have hd' : d = ⟨['a'], ['x']⟩ := by simpa [scriptAB] using hd.symm
  subst hd'
  obtain ⟨s0, hs0, _, _, _, hne0⟩ := hpre 0 (by decide)
  obtain ⟨s1, hs1, _, _, _, hne1⟩ := hpre 1 (by decide)
  have hFnow : sFull.now = 832 := by
    have e : run scriptAB zeros 2 = some sFull := hF
    have e' : run scriptAB zeros 2 = some (typingState 0 2 ⟨['a'], ['x']⟩ 832 864) := by
      decide
    rw [e'] at e
    cases e
    rfl
  exact ⟨by decide, fun _ => by simp [zeros], hfirst,
    ⟨s0, hs0, hne0 (by decide)⟩, ⟨s1, hs1, hne1 (by decide)⟩,
    sFull, sLeave, sRender, sClear, sNext, hF, hFc, hFnow, hL, hLt, hLn, hR, hRo, hRn,
    hlo, hhi, hC, hCc, hCo, hCn, hN, hNi, hNc, hNn⟩

/-- C9 as stated fails on the script `["a","b"]` with every inter-character
delay 32: the command `a` is fully displayed by turn 2, at time 832 (it was not
after turn 1); the output is still empty after turn 3 and is rendered by turn 4,
at time 1164, which is 332 and not 300 units later. -/
theorem sequencer_timing_counterexample :
    ∃ sPrev sFull sLeave sRender,
      run scriptAB zeros 1 = some sPrev ∧ sPrev.cmdText ≠ ['a']
      ∧ run scriptAB zeros 2 = some sFull ∧ sFull.cmdText = ['a'] ∧ sFull.now = 832
      ∧ run scriptAB zeros 3 = some sLeave ∧ sLeave.outText = []
      ∧ run scriptAB zeros 4 = some sRender ∧ sRender.outText = ['x']
      ∧ sRender.now = 1164 ∧ sRender.now ≠ sFull.now + 300 :=
  ⟨typingState 0 1 ⟨['a'], ['x']⟩ 800 832, typingState 0 2 ⟨['a'], ['x']⟩ 832 864,
    settleState 0 ⟨['a'], ['x']⟩ 864 1164, dwellState 0 ⟨['a'], ['x']⟩ 1164 3364,
    by decide, by decide, by decide, by decide, by decide, by decide, by decide,
    by decide, by decide, by decide, by decide⟩

/-! ### Theme toggle -/

/-- C2, as the code has it: two activations of the theme toggle in succession
return the applied theme to its original value when that value is "dark" or
"light"; from any other value, no `data-theme` attribute included, they leave
"light"; and in every case, after one activation as after two, the value
persisted under "theme" is the applied value. -/
theorem theme_toggle_twice (p : ThemePage) :
    ((p.dataTheme = some "dark" ∨ p.dataTheme = some "light") →
        (themeToggleClick (themeToggleClick p)).dataTheme = p.dataTheme)
    ∧ (p.dataTheme ≠ some "dark" →
        (themeToggleClick (themeToggleClick p)).dataTheme = some "light")
    ∧ getItem (themeToggleClick p).localStorage "theme" = (themeToggleClick p).dataTheme
    ∧ getItem (themeToggleClick (themeToggleClick p)).localStorage "theme"
        = (themeToggleClick (themeToggleClick p)).dataTheme := by
  refine ⟨?_, ?_, ?_, ?_⟩
  · rintro (h | h) <;> simp [themeToggleClick, h]
  · intro h
    simp [themeToggleClick, h]
  · simp [themeToggleClick, getItem, setItem]
  · simp [themeToggleClick, getItem, setItem]

/-- C2, amended, on a page whose applied theme is "dark" and whose store is
empty. -/
theorem theme_toggle_twice_witness :
    (some "dark" = some "dark" ∨ some "dark" = some "light") ∧
    (themeToggleClick (themeToggleClick ⟨some "dark", emptyStorage⟩)).dataTheme = some "dark"
    ∧ getItem (themeToggleClick (themeToggleClick ⟨some "dark", emptyStorage⟩)).localStorage
        "theme" = some "dark" :=
  ⟨Or.inl rfl,
    (theme_toggle_twice ⟨some "dark", emptyStorage⟩).1 (Or.inl rfl),
    by decide⟩

/-- C2 as stated fails on a page with no `data-theme` attribute: after two
activations the attribute is "light", not absent as it was. -/
theorem theme_toggle_twice_counterexample :
    (themeToggleClick (themeToggleClick ⟨none, emptyStorage⟩)).dataTheme = some "light"
    ∧ (themeToggleClick (themeToggleClick ⟨none, emptyStorage⟩)).dataTheme
        ≠ (⟨none, emptyStorage⟩ : ThemePage).dataTheme := by
  constructor <;> decide

/-- C3, as the code has it: at load a persisted value that is not the empty
string becomes the applied theme whatever the OS preference; with no persisted
value, or the empty string persisted, the applied theme is "dark" when the OS
reports dark mode and is left unchanged when it does not; and load never
changes the store. -/
theorem theme_load (prefersDark : Bool) (p : ThemePage) :
    (∀ v, getItem p.localStorage "theme" = some v → v ≠ "" →
        (themeLoad prefersDark p).dataTheme = some v)
    ∧ ((getItem p.localStorage "theme" = none ∨ getItem p.localStorage "theme" = some "") →
        (themeLoad true p).dataTheme = some "dark"
        ∧ (themeLoad false p).dataTheme = p.dataTheme)
    ∧ (themeLoad prefersDark p).localStorage = p.localStorage := by
  refine ⟨?_, ?_, ?_⟩
  · intro v hv hne
    simp [themeLoad, hv, truthy, hne]
  · rintro (h | h) <;> simp [themeLoad, h, truthy]
  · unfold themeLoad
    simp only
    split
    · rfl
    · split <;> rfl

/-- C3, amended, on a page whose store holds "light" while the OS prefers dark:
the applied theme is "light". -/
theorem theme_load_witness :
    getItem (setItem emptyStorage "theme" "light") "theme" = some "light" ∧ "light" ≠ "" ∧
    (themeLoad true ⟨none, setItem emptyStorage "theme" "light"⟩).dataTheme = some "light" :=
  ⟨by decide, by decide,
    (theme_load true ⟨none, setItem emptyStorage "theme" "light"⟩).1 "light"
      (by decide) (by decide)⟩

/-- C3 as stated fails when the value persisted under "theme" is the empty
string and the OS prefers dark: the value exists in the store, and the applied
theme after load is "dark", not that value. -/
theorem theme_load_counterexample :
    getItem (setItem emptyStorage "theme" "") "theme" = some ""
    ∧ (themeLoad true ⟨none, setItem emptyStorage "theme" ""⟩).dataTheme = some "dark"
    ∧ (themeLoad true ⟨none, setItem emptyStorage "theme" ""⟩).dataTheme
        ≠ getItem (setItem emptyStorage "theme" "") "theme" := by
  refine ⟨?_, ?_, ?_⟩ <;> decide

/-! ### Scroll reveal -/

theorem revealEntry_visible_mono (s : Reveal) (e : Entry) (el : Nat)
    (h : s.visible el = true) : (revealEntry s e).visible el = true := by
  unfold revealEntry
  split
  · simp only; split <;> simp [h]
  · exact h

theorem revealEntry_observed_mono (s : Reveal) (e : Entry) (el : Nat)
    (h : s.observed el = false) : (revealEntry s e).observed el = false := by
  unfold revealEntry
  split
  · simp only; split <;> simp [h]
  · exact h

theorem revealEntry_done (s : Reveal) (e : Entry) (el : Nat)
    (h : s.visible el = true ∧ s.observed el = false) :
    (revealEntry s e).visible el = true ∧ (revealEntry s e).observed el = false :=
  ⟨revealEntry_visible_mono s e el h.1, revealEntry_observed_mono s e el h.2⟩

theorem observerCallback_done (el : Nat) (entries : List Entry) :
    ∀ s : Reveal, s.visible el = true ∧ s.observed el = false →
      (observerCallback s entries).visible el = true
      ∧ (observerCallback s entries).observed el = false := by
  induction entries with
  | nil => intro s h; exact h
  | cons e es ih =>
    intro s h
    exact ih (revealEntry s e) (revealEntry_done s e el h)

theorem observerCallback_visible_mono (el : Nat) (entries : List Entry) :
    ∀ s : Reveal, s.visible el = true → (observerCallback s entries).visible el = true := by
  induction entries with
  | nil => intro s h; exact h
  | cons e es ih =>
    intro s h
    exact ih (revealEntry s e) (revealEntry_visible_mono s e el h)

theorem observerCallback_observed_mono (el : Nat) (entries : List Entry) :
    ∀ s : Reveal, s.observed el = false → (observerCallback s entries).observed el = false := by
  induction entries with
  | nil => intro s h; exact h
  | cons e es ih =>
    intro s h
    exact ih (revealEntry s e) (revealEntry_observed_mono s e el h)

theorem observerCallback_intersects (el : Nat) (entries : List Entry) :
    ∀ s : Reveal, intersects el entries = true →
      (observerCallback s entries).visible el = true
      ∧ (observerCallback s entries).observed el = false := by
  induction entries with
  | nil => intro s h; simp [intersects] at h
  | cons e es ih =>
    intro s h
    by_cases he : e.target = el ∧ e.isIntersecting = true
    · apply observerCallback_done el es (revealEntry s e)
      simp [revealEntry, he.1, he.2]
    · apply ih (revealEntry s e)
      simp only [intersects, List.any_cons, Bool.or_eq_true, Bool.and_eq_true,
        decide_eq_true_eq] at h
      rcases h with h | h
      · exact absurd h he
      · exact h

theorem observerCallback_not_intersects (el : Nat) (entries : List Entry) :
    ∀ s : Reveal, intersects el entries = false →
      (observerCallback s entries).visible el = s.visible el
      ∧ (observerCallback s entries).observed el = s.observed el := by
  induction entries with
  | nil => intro s _; exact ⟨rfl, rfl⟩
  | cons e es ih =>
    intro s h
    simp only [intersects, List.any_cons, Bool.or_eq_false_iff] at h
    have h2 := ih (revealEntry s e) h.2
    have h1 : (revealEntry s e).visible el = s.visible el
        ∧ (revealEntry s e).observed el = s.observed el := by
      unfold revealEntry
      split
      · rename_i hi
        have hne : ¬ e.target = el := by
          intro hc
          simp [hc, hi] at h
        have hne' : ¬ el = e.target := fun hc => hne hc.symm
        simp [hne']
      · exact ⟨rfl, rfl⟩
    exact ⟨h2.1.trans h1.1, h2.2.trans h1.2⟩

theorem deliver_done (el : Nat) (ns : List (List Entry)) :
    ∀ s : Reveal, s.visible el = true ∧ s.observed el = false →
      (deliver s ns).visible el = true ∧ (deliver s ns).observed el = false := by
  induction ns with
  | nil => intro s h; exact h
  | cons n ns ih =>
    intro s h
    exact ih (observerCallback s n) (observerCallback_done el n s h)

theorem deliver_append (s : Reveal) (a b : List (List Entry)) :
    deliver s (a ++ b) = deliver (deliver s a) b := by
  simp [deliver, List.foldl_append]

theorem deliver_quiet (el : Nat) (ns : List (List Entry)) :
    ∀ s : Reveal, (∀ n ∈ ns, intersects el n = false) →
      (deliver s ns).visible el = s.visible el
      ∧ (deliver s ns).observed el = s.observed el := by
  induction ns with
  | nil => intro s _; exact ⟨rfl, rfl⟩
  | cons n ns ih =>
    intro s h
    have h1 := observerCallback_not_intersects el n s (h n (List.mem_cons_self _ _))
    have h2 := ih (observerCallback s n) (fun k hk => h k (List.mem_cons_of_mem _ hk))
    exact ⟨h2.1.trans h1.1, h2.2.trans h1.2⟩

theorem transitions_of_visible (el : Nat) (ns : List (List Entry)) :
    ∀ s : Reveal, s.visible el = true → transitions el s ns = 0 := by
  induction ns with
  | nil => intro s _; rfl
  | cons n ns ih =>
    intro s h
    simp [transitions, h, ih (observerCallback s n) (observerCallback_visible_mono el n s h)]

theorem transitions_le_one (el : Nat) (ns : List (List Entry)) :
    ∀ s : Reveal, transitions el s ns ≤ 1 := by
  induction ns with
  | nil => intro s; simp [transitions]
  | cons n ns ih =>
    intro s
    by_cases hv : (observerCallback s n).visible el = true
    · simp only [transitions, transitions_of_visible el ns _ hv]
      split <;> simp
    · simp only [transitions, hv]
      simpa using ih (observerCallback s n)

/-- C6: for every element and every sequence of notifications delivered to the
observer callback, the element goes from not visible to visible at most once; a
notification that does not report it intersecting changes neither its
visibility nor whether it is watched; an element that is watched and not
visible stays watched and not visible through the notifications that do not
report it intersecting, is visible and removed from the watched set by the
first notification that does, and is visible and not watched after every
further notification, whatever it reports. -/
theorem reveal_once (s : Reveal) (el : Nat) (before : List (List Entry))
    (first : List Entry) (after : List (List Entry)) :
    transitions el s (before ++ first :: after) ≤ 1
    ∧ (∀ (t : Reveal) (n : List Entry), intersects el n = false →
        (observerCallback t n).visible el = t.visible el
        ∧ (observerCallback t n).observed el = t.observed el)
    ∧ (s.visible el = false → s.observed el = true →
        (∀ n ∈ before, intersects el n = false) →
        intersects el first = true →
        (deliver s before).visible el = false
        ∧ (deliver s before).observed el = true
        ∧ (deliver s (before ++ [first])).visible el = true
        ∧ (deliver s (before ++ [first])).observed el = false
        ∧ (deliver s (before ++ first :: after)).visible el = true
        ∧ (deliver s (before ++ first :: after)).observed el = false
        ∧ transitions el s (before ++ first :: after) = 1) := by
  refine ⟨transitions_le_one el _ s,
    fun t n hn => observerCallback_not_intersects el n t hn, ?_⟩
  intro hv ho hq hf
  have hb := deliver_quiet el before s hq
  have h1 : (deliver s (before ++ [first])).visible el = true
      ∧ (deliver s (before ++ [first])).observed el = false := by
    rw [deliver_append]
    exact observerCallback_intersects el first (deliver s before) hf
  have h2 : (deliver s (before ++ first :: after)).visible el = true
      ∧ (deliver s (before ++ first :: after)).observed el = false := by
    have e : before ++ first :: after = (before ++ [first]) ++ after := by simp
    rw [e, deliver_append]
    exact deliver_done el after _ h1
  refine ⟨hb.1.trans hv, hb.2.trans ho, h1.1, h1.2, h2.1, h2.2, ?_⟩
  clear h1 h2 hb
  induction before generalizing s with
  | nil =>
    have hvis := (observerCallback_intersects el first s hf).1
    simp [transitions, hv, hvis, transitions_of_visible el after _ hvis]
  | cons b bs ih =>
    have hq1 := observerCallback_not_intersects el b s (hq b (List.mem_cons_self _ _))
    have hv1 : (observerCallback s b).visible el = false := hq1.1.trans hv
    have ho1 : (observerCallback s b).observed el = true := hq1.2.trans ho
    have := ih (observerCallback s b) hv1 ho1 (fun k hk => hq k (List.mem_cons_of_mem _ hk))
    simp [transitions, hv, hv1, this]

/-- C6 on three tagged elements, all watched and none visible: element 1 is
reported not intersecting by the first notification (which reveals element 0),
intersecting by the second, and then not intersecting and intersecting again. -/
theorem reveal_once_witness :
    (revealInit 3).visible 1 = false
    ∧ (revealInit 3).observed 1 = true
    ∧ (∀ n ∈ [[(⟨1, false⟩ : Entry), ⟨0, true⟩]], intersects 1 n = false)
    ∧ intersects 1 [⟨1, true⟩] = true
    ∧ ((deliver (revealInit 3) [[⟨1, false⟩, ⟨0, true⟩]]).visible 1 = false
        ∧ (deliver (revealInit 3) [[⟨1, false⟩, ⟨0, true⟩]]).observed 1 = true
        ∧ (deliver (revealInit 3) ([[⟨1, false⟩, ⟨0, true⟩]] ++ [[⟨1, true⟩]])).visible 1 = true
        ∧ (deliver (revealInit 3) ([[⟨1, false⟩, ⟨0, true⟩]] ++ [[⟨1, true⟩]])).observed 1
            = false
        ∧ (deliver (revealInit 3) ([[⟨1, false⟩, ⟨0, true⟩]] ++
            [⟨1, true⟩] :: [[⟨1, false⟩], [⟨1, true⟩]])).visible 1 = true
        ∧ (deliver (revealInit 3) ([[⟨1, false⟩, ⟨0, true⟩]] ++
            [⟨1, true⟩] :: [[⟨1, false⟩], [⟨1, true⟩]])).observed 1 = false
        ∧ transitions 1 (revealInit 3) ([[⟨1, false⟩, ⟨0, true⟩]] ++
            [⟨1, true⟩] :: [[⟨1, false⟩], [⟨1, true⟩]]) = 1) :=
  ⟨rfl, by decide, by decide, by decide,
    (reveal_once (revealInit 3) 1 [[⟨1, false⟩, ⟨0, true⟩]] [⟨1, true⟩]
      [[⟨1, false⟩], [⟨1, true⟩]]).2.2 rfl (by decide) (by decide) (by decide)⟩

/-! ### Copy buttons -/

theorem copyRun_cons (b : CopyBtn) (e : CopyEvent) (es : List CopyEvent) :
    copyRun b (e :: es) = copyRun (copyStep b e) es := rfl

/-- While the revert due at `T` is the earliest one pending and `T` has not
come, the control keeps showing the confirmation. -/
theorem copy_hold (T : Nat) (es : List CopyEvent) :
    ∀ b : CopyBtn, b.copied = true → b.innerHTML = .checkIcon →
      (∀ t ∈ b.timers, T ≤ t) → T ∈ b.timers → T ≤ b.now + 1500 →
      b.now + elapsed es < T →
      (copyRun b es).copied = true ∧ (copyRun b es).innerHTML = .checkIcon
      ∧ T ∈ (copyRun b es).timers ∧ (copyRun b es).now = b.now + elapsed es := by
  induction es with
  | nil => intro b hc hg _ hT _ _; exact ⟨hc, hg, hT, rfl⟩
  | cons e es ih =>
    intro b hc hg hall hT hle hlt
    rw [copyRun_cons]
    cases e with
    | click =>
      simp only [elapsed] at hlt ⊢
      exact ih _ hc hg hall hT hle hlt
    | confirm =>
      simp only [elapsed] at hlt ⊢
      by_cases hp : b.pending = 0
      · simp only [copyStep, hp, if_true]
        exact ih _ hc hg hall hT hle hlt
      · simp only [copyStep, hp, if_false]
        refine ih _ rfl rfl ?_ ?_ hle hlt
        · intro t ht
          simp only [List.mem_append, List.mem_singleton] at ht
          rcases ht with ht | ht
          · exact hall t ht
          · rw [ht]; exact hle
        · simp [hT]
    | fail =>
      simp only [elapsed] at hlt ⊢
      exact ih _ hc hg hall hT hle hlt
    | advance dt =>
      simp only [elapsed] at hlt ⊢
      have hnone : b.timers.any (fun t => decide (t ≤ b.now + dt)) = false := by
        rw [List.any_eq_false]
        intro t ht
        have := hall t ht
        simp only [decide_eq_true_eq]
        omega
      simp only [copyStep, hnone]
      have := ih { b with now := b.now + dt } hc hg hall hT (by simp only; omega)
        (by simp only; omega)
      simp only [Nat.add_assoc] at this ⊢
      exact this

theorem copy_advance_due (c : CopyBtn) (dt : Nat)
    (h : c.timers.any (fun t => decide (t ≤ c.now + dt)) = true) :
    (copyStep c (.advance dt)).copied = false
    ∧ (copyStep c (.advance dt)).innerHTML = .copyIcon := by
  simp only [copyStep, h, if_true, and_self]

theorem copy_shown_until (T : Nat) (es : List CopyEvent) (dt : Nat) (c : CopyBtn)
    (hc : c.copied = true) (hg : c.innerHTML = .checkIcon)
    (hall : ∀ t ∈ c.timers, T ≤ t) (hT : T ∈ c.timers) (hle : T ≤ c.now + 1500)
    (hlt : c.now + elapsed es < T) :
    (copyRun c es).copied = true ∧ (copyRun c es).innerHTML = .checkIcon
    ∧ (T ≤ c.now + elapsed es + dt →
        (copyStep (copyRun c es) (.advance dt)).copied = false
        ∧ (copyStep (copyRun c es) (.advance dt)).innerHTML = .copyIcon) := by
  obtain ⟨h1, h2, h3, h4⟩ := copy_hold T es c hc hg hall hT hle hlt
  refine ⟨h1, h2, fun hdt => copy_advance_due _ dt ?_⟩
  rw [List.any_eq_true]
  exact ⟨T, h3, by rw [h4]; simp only [decide_eq_true_eq]; omega⟩

/-- A pending revert is due later than now and at most 1500 units from now. -/
theorem copy_timers_window (es : List CopyEvent) :
    ∀ b : CopyBtn, (∀ t ∈ b.timers, b.now < t ∧ t ≤ b.now + 1500) →
      ∀ t ∈ (copyRun b es).timers, (copyRun b es).now < t ∧ t ≤ (copyRun b es).now + 1500 := by
  induction es with
  | nil => intro b h; exact h
  | cons e es ih =>
    intro b h
    rw [copyRun_cons]
    apply ih
    cases e with
    | click => exact h
    | confirm =>
      simp only [copyStep]
      split
      · exact h
      · intro t ht
        simp only [List.mem_append, List.mem_singleton] at ht
        rcases ht with ht | ht
        · exact h t ht
        · subst ht; simp only; omega
    | fail => exact h
    | advance dt =>
      simp only [copyStep]
      split
      · intro t ht
        simp only [List.mem_filter, decide_eq_true_eq] at ht
        have := h t ht.1
        simp only
        omega
      · rename_i hany
        have hnone : b.timers.any (fun t => decide (t ≤ b.now + dt)) = false := by
          simpa using hany
        rw [List.any_eq_false] at hnone
        intro t ht
        have h1 := h t ht
        have h2 := hnone t ht
        simp only [decide_eq_true_eq] at h2
        simp only
        omega

/-- C5, as the code has it: a click passes exactly the designated text to the
clipboard write, and nothing else calls it; the confirmation of a write shows
the check mark, adds the class and sets a revert 1500 units ahead; when no
revert is pending at the confirmation, the control shows the confirmation
through every sequence of clicks, confirmations and failures that takes less
than 1500 units, and has the copy icon and no class once 1500 units have
passed; when a revert is pending at the confirmation, the earliest one due at
`T`, the control shows the confirmation through every sequence of events that
ends before `T` and has the copy icon and no class once `T` has come; time
passing changes the class only when a pending revert has come due; and in
every state a control reaches from load each pending revert is due after the
present and at most 1500 units from it. -/
theorem copy_confirmation (b : CopyBtn) (es : List CopyEvent) (dt : Nat) :
    (copyStep b .click).written = b.written ++ [b.text]
    ∧ (∀ e, e ≠ .click → (copyStep b e).written = b.written)
    ∧ (0 < b.pending →
        (copyStep b .confirm).copied = true
        ∧ (copyStep b .confirm).innerHTML = .checkIcon
        ∧ (copyStep b .confirm).timers = b.timers ++ [b.now + 1500])
    ∧ (0 < b.pending → b.timers = [] → elapsed es < 1500 →
        (copyRun (copyStep b .confirm) es).copied = true
        ∧ (copyRun (copyStep b .confirm) es).innerHTML = .checkIcon
        ∧ (1500 ≤ elapsed es + dt →
            (copyStep (copyRun (copyStep b .confirm) es) (.advance dt)).copied = false
            ∧ (copyStep (copyRun (copyStep b .confirm) es) (.advance dt)).innerHTML
                = .copyIcon))
    ∧ ((copyStep b (.advance dt)).copied ≠ b.copied → ∃ t ∈ b.timers, t ≤ b.now + dt)
    ∧ (∀ T, 0 < b.pending → T ∈ b.timers → (∀ t ∈ b.timers, T ≤ t) →
        T ≤ b.now + 1500 → b.now + elapsed es < T →
        (copyRun (copyStep b .confirm) es).copied = true
        ∧ (copyRun (copyStep b .confirm) es).innerHTML = .checkIcon
        ∧ (T ≤ b.now + elapsed es + dt →
            (copyStep (copyRun (copyStep b .confirm) es) (.advance dt)).copied = false
            ∧ (copyStep (copyRun (copyStep b .confirm) es) (.advance dt)).innerHTML
                = .copyIcon))
    ∧ (∀ (text : Option String) (pre : List CopyEvent),
        ∀ t ∈ (copyRun (copyInit text) pre).timers,
          (copyRun (copyInit text) pre).now < t
          ∧ t ≤ (copyRun (copyInit text) pre).now + 1500) := by
  have hstep : 0 < b.pending → copyStep b .confirm
      = { b with pending := b.pending - 1, innerHTML := .checkIcon, copied := true,
                 timers := b.timers ++ [b.now + 1500] } := by
    intro hp
    have hp' : ¬ b.pending = 0 := by omega
    simp [copyStep, hp']
  refine ⟨rfl, ?_, ?_, ?_, ?_, ?_, ?_⟩
  · intro e he
    cases e with
    | click => exact absurd rfl he
    | confirm => simp only [copyStep]; split <;> rfl
    | fail => rfl
    | advance d => simp only [copyStep]; split <;> rfl
  · intro hp
    rw [hstep hp]
    exact ⟨rfl, rfl, rfl⟩
  · intro hp ht hel
    have hold := copy_shown_until (b.now + 1500) es dt (copyStep b .confirm)
      (by rw [hstep hp]) (by rw [hstep hp])
      (by rw [hstep hp, ht]; intro t htm; simp at htm; omega)
      (by rw [hstep hp]; simp)
      (by rw [hstep hp])
      (by rw [hstep hp]; simp only; omega)
    refine ⟨hold.1, hold.2.1, fun hdt => hold.2.2 ?_⟩
    rw [hstep hp]
    simp only
    omega
  · intro hne
    by_cases hany : b.timers.any (fun t => decide (t ≤ b.now + dt)) = true
    · rw [List.any_eq_true] at hany
      obtain ⟨t, ht, hle⟩ := hany
      exact ⟨t, ht, by simpa using hle⟩
    · simp [copyStep, hany] at hne
  · intro T hp hT hmin hle hlt
    have hold := copy_shown_until T es dt (copyStep b .confirm)
      (by rw [hstep hp]) (by rw [hstep hp])
      (by
        rw [hstep hp]
        intro t htm
        simp only [List.mem_append, List.mem_singleton] at htm
        rcases htm with htm | htm
        · exact hmin t htm
        · rw [htm]; exact hle)
      (by rw [hstep hp]; simp [hT])
      (by rw [hstep hp]; exact hle)
      (by rw [hstep hp]; exact hlt)
    refine ⟨hold.1, hold.2.1, fun hdt => hold.2.2 ?_⟩
    rw [hstep hp]
    exact hdt
  · intro text pre
    apply copy_timers_window pre (copyInit text)
    intro t ht
    simp [copyInit] at ht

/-- C5, amended, on a control with `data-copy="ical add"`. First activation:
the write is pending with no revert pending, and its confirmation at time 0
holds through 1499 units, further click included, and is gone at 1500. Second
activation, confirmed at time 1000 while the revert of the first (due at 1500)
is pending: the confirmation holds through time 1499 and is gone at 1500. -/
theorem copy_confirmation_witness :
    (0 < (copyStep (copyInit (some "ical add")) .click).pending
      ∧ (copyStep (copyInit (some "ical add")) .click).timers = []
      ∧ elapsed [.advance 1000, .click, .advance 499] < 1500
      ∧ (copyStep (copyInit (some "ical add")) .click).written = [some "ical add"]
      ∧ (copyRun (copyStep (copyStep (copyInit (some "ical add")) .click) .confirm)
            [.advance 1000, .click, .advance 499]).copied = true
      ∧ (copyRun (copyStep (copyStep (copyInit (some "ical add")) .click) .confirm)
            [.advance 1000, .click, .advance 499]).innerHTML = .checkIcon
      ∧ (copyStep (copyRun (copyStep (copyStep (copyInit (some "ical add")) .click) .confirm)
            [.advance 1000, .click, .advance 499]) (.advance 1)).copied = false
      ∧ (copyStep (copyRun (copyStep (copyStep (copyInit (some "ical add")) .click) .confirm)
            [.advance 1000, .click, .advance 499]) (.advance 1)).innerHTML = .copyIcon)
    ∧ (0 < (copyRun (copyInit (some "ical add"))
            [.click, .confirm, .advance 1000, .click]).pending
      ∧ (copyRun (copyInit (some "ical add"))
            [.click, .confirm, .advance 1000, .click]).timers = [1500]
      ∧ (copyRun (copyInit (some "ical add"))
            [.click, .confirm, .advance 1000, .click]).now = 1000
      ∧ (copyRun (copyStep (copyRun (copyInit (some "ical add"))
            [.click, .confirm, .advance 1000, .click]) .confirm) [.advance 499]).copied = true
      ∧ (copyStep (copyRun (copyStep (copyRun (copyInit (some "ical add"))
            [.click, .confirm, .advance 1000, .click]) .confirm) [.advance 499])
            (.advance 1)).copied = false
      ∧ (copyStep (copyRun (copyStep (copyRun (copyInit (some "ical add"))
            [.click, .confirm, .advance 1000, .click]) .confirm) [.advance 499])
            (.advance 1)).innerHTML = .copyIcon) := by
  have h1 := (copy_confirmation (copyStep (copyInit (some "ical add")) .click)
      [.advance 1000, .click, .advance 499] 1).2.2.2.1 (by decide) (by decide) (by decide)
  have h2 := (copy_confirmation
      (copyRun (copyInit (some "ical add")) [.click, .confirm, .advance 1000, .click])
      [.advance 499] 1).2.2.2.2.2.1 1500 (by decide) (by decide) (by decide) (by decide)
      (by decide)
  exact ⟨⟨by decide, by decide, by decide, by decide, h1.1, h1.2.1,
      (h1.2.2 (by decide)).1, (h1.2.2 (by decide)).2⟩,
    ⟨by decide, by decide, by decide, h2.1, (h2.2.2 (by decide)).1,
      (h2.2.2 (by decide)).2⟩⟩

/-- C5 as stated fails for a second activation within 1500 units: the first
write is confirmed at time 0 and the second at time 1000; at time 1500, only 500
units after the second confirmation, the control is back to the copy icon and
untagged. -/
theorem copy_confirmation_counterexample :
    (copyRun (copyInit (some "ical add")) [.click, .confirm, .advance 1000, .click]).pending = 1
    ∧ (copyRun (copyInit (some "ical add"))
        [.click, .confirm, .advance 1000, .click, .confirm]).now = 1000
    ∧ (copyRun (copyInit (some "ical add"))
        [.click, .confirm, .advance 1000, .click, .confirm]).copied = true
    ∧ (copyRun (copyInit (some "ical add"))
        [.click, .confirm, .advance 1000, .click, .confirm, .advance 500]).now = 1500
    ∧ (copyRun (copyInit (some "ical add"))
        [.click, .confirm, .advance 1000, .click, .confirm, .advance 500]).copied = false
    ∧ (copyRun (copyInit (some "ical add"))
        [.click, .confirm, .advance 1000, .click, .confirm, .advance 500]).innerHTML
        = .copyIcon := by
  refine ⟨?_, ?_, ?_, ?_, ?_, ?_⟩ <;> decide

/-! ### Install tabs -/

theorem lt_of_getElem?_some {α : Type} {l : List α} {i : Nat} {a : α}
    (h : l[i]? = some a) : i < l.length := by
  by_contra hc
  rw [List.getElem?_eq_none (Nat.le_of_not_lt hc)] at h
  cases h

theorem firstIdx_some {α : Type} (p : α → Bool) :
    ∀ (l : List α) (j : Nat), firstIdx p l = some j → ∃ a, l[j]? = some a ∧ p a = true := by
  intro l
  induction l with
  | nil => intro j h; simp [firstIdx] at h
  | cons a l ih =>
    intro j h
    by_cases hp : p a = true
    · simp [firstIdx, hp] at h
      subst h
      exact ⟨a, by simp, hp⟩
    · simp only [firstIdx, hp] at h
      cases hf : firstIdx p l with
      | none => simp [hf] at h
      | some k =>
        simp [hf] at h
        subst h
        obtain ⟨b, hb, hpb⟩ := ih k hf
        exact ⟨b, by simpa using hb, hpb⟩

theorem firstIdx_map {α : Type} (p : α → Bool) (f : α → α) (hf : ∀ a, p (f a) = p a) :
    ∀ l : List α, firstIdx p (l.map f) = firstIdx p l := by
  intro l
  induction l with
  | nil => rfl
  | cons a l ih => simp [firstIdx, hf, ih]

theorem firstIdx_modifyAt {α : Type} (p : α → Bool) (f : α → α) (hf : ∀ a, p (f a) = p a) :
    ∀ (l : List α) (i : Nat), firstIdx p (modifyAt f i l) = firstIdx p l := by
  intro l
  induction l with
  | nil => intro i; cases i <;> rfl
  | cons a l ih =>
    intro i
    cases i with
    | zero => simp [modifyAt, firstIdx, hf]
    | succ i => simp [modifyAt, firstIdx, ih i]

theorem getElem?_modifyAt {α : Type} (f : α → α) :
    ∀ (l : List α) (i j : Nat),
      (modifyAt f i l)[j]? = (l[j]?).map (fun a => if j = i then f a else a) := by
  intro l
  induction l with
  | nil => intro i j; cases i <;> simp [modifyAt]
  | cons a l ih =>
    intro i j
    cases i with
    | zero =>
      cases j with
      | zero => simp [modifyAt]
      | succ j =>
        simp only [modifyAt, List.getElem?_cons_succ]
        cases l[j]? <;> simp
    | succ i =>
      cases j with
      | zero => simp [modifyAt]
      | succ j => simp [modifyAt, ih i j]

theorem length_modifyAt {α : Type} (f : α → α) :
    ∀ (l : List α) (i : Nat), (modifyAt f i l).length = l.length := by
  intro l
  induction l with
  | nil => intro i; cases i <;> rfl
  | cons a l ih =>
    intro i
    cases i with
    | zero => rfl
    | succ i => simp [modifyAt, ih i]

/-- The sample query engine meets the contract. -/
theorem plainQuerySelector_spec : QuerySpec plainQuerySelector := by
  intro v doc hv
  have hlen : (selectorHead ++ v ++ selectorTail).length
      - (selectorHead.length + selectorTail.length) = v.length := by
    simp only [List.length_append]
    omega
  have hmid : ((selectorHead ++ v ++ selectorTail).drop selectorHead.length).take
      ((selectorHead ++ v ++ selectorTail).length
        - (selectorHead.length + selectorTail.length)) = v := by
    rw [hlen, List.append_assoc, List.drop_left, List.take_left]
  have hall : v.all plainChar = true := by
    rw [List.all_eq_true]
    exact hv
  unfold plainQuerySelector
  simp only [hmid, hall, and_self, if_true]

theorem deselect_dataPanel (e : Element) :
    (deselectPanel (deselectTab e)).dataPanel = e.dataPanel := by
  unfold deselectPanel deselectTab
  split <;> split <;> rfl

/-- The document after a click, place by place. -/
theorem tabClick_getElem? (querySelector : Text → List Element → QueryResult)
    (doc : List Element) (i : Nat) (this : Element) (hqs : QuerySpec querySelector)
    (h : doc[i]? = some this) (htab : this.installTab = true)
    (hplain : ∀ c ∈ targetText this.dataTab, plainChar c = true) (j : Nat) :
    (tabClick querySelector i doc)[j]?
      = (doc[j]?).map (clicked i (firstPanel (targetText this.dataTab) doc) j) := by
  have hq : firstPanel (targetText this.dataTab)
      (modifyAt selectTab i ((doc.map deselectTab).map deselectPanel))
      = firstPanel (targetText this.dataTab) doc := by
    unfold firstPanel
    rw [firstIdx_modifyAt _ _ (fun a => by simp [selectTab]), List.map_map,
      firstIdx_map _ _ (fun a => by
        simp only [Function.comp, deselect_dataPanel])]
  unfold tabClick
  simp only [h, htab, if_true, selectorText]
  rw [hqs _ _ hplain, hq]
  cases hf : firstPanel (targetText this.dataTab) doc with
  | none =>
    simp only [getElem?_modifyAt, List.getElem?_map, Option.map_map]
    cases doc[j]? with
    | none => rfl
    | some e => simp [clicked]
  | some k =>
    simp only [getElem?_modifyAt, List.getElem?_map, Option.map_map]
    cases doc[j]? with
    | none => rfl
    | some e =>
      simp only [Option.map_some', Function.comp, clicked, Option.some.injEq]
      by_cases hjk : j = k
      · have hkj : k = j := hjk.symm
        simp [hjk]
      · have hkj : ¬ k = j := fun hc => hjk hc.symm
        simp [hjk, hkj]

theorem clicked_classes (i : Nat) (q : Option Nat) (j : Nat) (e : Element) :
    (clicked i q j e).installTab = e.installTab
    ∧ (clicked i q j e).installPanel = e.installPanel
    ∧ (clicked i q j e).dataPanel = e.dataPanel := by
  unfold clicked deselectPanel deselectTab selectTab activate
  simp only
  split <;> split <;> split <;> split <;> simp

theorem clicked_ariaSelected (i : Nat) (q : Option Nat) (j : Nat) (e : Element)
    (htab : e.installTab = true) :
    (clicked i q j e).ariaSelected = some "true" ↔ j = i := by
  unfold clicked deselectPanel deselectTab selectTab activate
  simp only [htab, if_true]
  split <;> split <;> split <;> simp_all

theorem clicked_active (i : Nat) (q : Option Nat) (j : Nat) (e : Element)
    (hcls : e.installTab = true ∨ e.installPanel = true) :
    (clicked i q j e).active = true ↔ (j = i ∨ q = some j) := by
  obtain ⟨it, ip, dt, dp, act, aria⟩ := e
  by_cases hq : q = some j <;> by_cases hji : j = i <;> cases it <;> cases ip <;>
    simp_all [clicked, deselectPanel, deselectTab, selectTab, activate]

theorem countP_none {α : Type} (p : α → Bool) (l : List α)
    (h : ∀ (j : Nat) (e : α), l[j]? = some e → p e = false) : l.countP p = 0 := by
  rw [List.countP_eq_zero]
  intro a ha
  obtain ⟨j, hj⟩ := List.getElem?_of_mem ha
  simp [h j a hj]

theorem countP_unique {α : Type} (p : α → Bool) :
    ∀ (l : List α) (i : Nat),
      (∀ (j : Nat) (e : α), l[j]? = some e → (p e = true ↔ j = i)) →
      l.countP p = if i < l.length then 1 else 0 := by
  intro l
  induction l with
  | nil => intro i _; simp
  | cons a l ih =>
    intro i h
    cases i with
    | zero =>
      have ha : p a = true := (h 0 a (by simp)).mpr rfl
      have hl : l.countP p = 0 := by
        apply countP_none
        intro j e hj
        have := h (j + 1) e (by simpa using hj)
        cases hp : p e with
        | false => rfl
        | true => exact absurd (this.mp hp) (by omega)
      simp [List.countP_cons, ha, hl]
    | succ i =>
      have ha : p a = false := by
        cases hp : p a with
        | false => rfl
        | true => exact absurd ((h 0 a (by simp)).mp hp) (by omega)
      have hl := ih i (fun j e hj => by
        have := h (j + 1) e (by simpa using hj)
        rw [this]
        omega)
      simp [List.countP_cons, ha, hl]

/-- C4, as the code has it: after the install tab at place `i`, whose data-tab
is made of plain characters, is activated, an install tab has aria-selected
"true" exactly when it is that tab, and an install tab or install panel is
active exactly when it is that tab or the first element of the document whose
data-panel is the data-tab of that tab. So, in a document whose install tabs
are not install panels and carry no data-panel, exactly one tab is active, at
most one install panel is active, every active one carries that identifier, and
exactly one is active precisely when that first element exists and is an
install panel. -/
theorem tab_click (querySelector : Text → List Element → QueryResult)
    (doc : List Element) (i : Nat) (this : Element) (hqs : QuerySpec querySelector)
    (h : doc[i]? = some this) (htab : this.installTab = true)
    (hplain : ∀ c ∈ targetText this.dataTab, plainChar c = true) :
    (∀ j e, (tabClick querySelector i doc)[j]? = some e → e.installTab = true →
        (e.ariaSelected = some "true" ↔ j = i))
    ∧ (∀ j e, (tabClick querySelector i doc)[j]? = some e →
        (e.installTab = true ∨ e.installPanel = true) →
        (e.active = true ↔ (j = i ∨ firstPanel (targetText this.dataTab) doc = some j)))
    ∧ ((∀ e ∈ doc, e.installTab = true → e.installPanel = false ∧ e.dataPanel = none) →
        (activeTabs (tabClick querySelector i doc)).length = 1
        ∧ (∀ t ∈ activeTabs (tabClick querySelector i doc), t.dataTab = this.dataTab)
        ∧ (activePanels (tabClick querySelector i doc)).length ≤ 1
        ∧ (∀ p ∈ activePanels (tabClick querySelector i doc),
            p.dataPanel = some (targetText this.dataTab))
        ∧ ((activePanels (tabClick querySelector i doc)).length = 1 ↔
            ∃ j p, firstPanel (targetText this.dataTab) doc = some j
              ∧ doc[j]? = some p ∧ p.installPanel = true)) := by
  have hget := tabClick_getElem? querySelector doc i this hqs h htab hplain
  have hfrom : ∀ j e, (tabClick querySelector i doc)[j]? = some e →
      ∃ e0, doc[j]? = some e0
        ∧ e = clicked i (firstPanel (targetText this.dataTab) doc) j e0 := by
    intro j e hj
    rw [hget j] at hj
    cases hd : doc[j]? with
    | none => simp [hd] at hj
    | some e0 =>
      simp only [hd, Option.map_some', Option.some.injEq] at hj
      exact ⟨e0, rfl, hj.symm⟩
  have hlen : (tabClick querySelector i doc).length = doc.length := by
    have hle : ∀ n, n < (tabClick querySelector i doc).length ↔ n < doc.length := by
      intro n
      constructor
      · intro hn
        obtain ⟨e0, he0, _⟩ := hfrom n _ (List.getElem?_eq_getElem hn)
        exact lt_of_getElem?_some he0
      · intro hn
        have := hget n
        rw [List.getElem?_eq_getElem hn] at this
        exact lt_of_getElem?_some this
    by_contra hne
    rcases Nat.lt_or_gt_of_ne hne with hlt | hgt
    · exact absurd ((hle _).mpr hlt) (Nat.lt_irrefl _)
    · exact absurd ((hle _).mp hgt) (Nat.lt_irrefl _)
  have haria : ∀ j e, (tabClick querySelector i doc)[j]? = some e → e.installTab = true →
      (e.ariaSelected = some "true" ↔ j = i) := by
    intro j e hj het
    obtain ⟨e0, _, rfl⟩ := hfrom j e hj
    apply clicked_ariaSelected
    rw [← (clicked_classes i _ j e0).1]
    exact het
  have hact : ∀ j e, (tabClick querySelector i doc)[j]? = some e →
      (e.installTab = true ∨ e.installPanel = true) →
      (e.active = true ↔ (j = i ∨ firstPanel (targetText this.dataTab) doc = some j)) := by
    intro j e hj hcls
    obtain ⟨e0, _, rfl⟩ := hfrom j e hj
    apply clicked_active
    rw [← (clicked_classes i _ j e0).1, ← (clicked_classes i _ j e0).2.1]
    exact hcls
  refine ⟨haria, hact, ?_⟩
  intro hsep
  have hi : i < doc.length := lt_of_getElem?_some h
  -- a tab is never the element the query finds, and the clicked tab is no panel
  have hnotq : ∀ j e0, doc[j]? = some e0 → e0.installTab = true →
      firstPanel (targetText this.dataTab) doc ≠ some j := by
    intro j e0 hj het hq
    obtain ⟨a, ha, hpa⟩ := firstIdx_some _ _ _ hq
    rw [hj] at ha
    cases ha
    have := (hsep e0 (List.mem_iff_getElem?.mpr ⟨_, hj⟩) het).2
    simp [this] at hpa
  have htabs : ∀ j e, (tabClick querySelector i doc)[j]? = some e →
      ((e.installTab && e.active) = true ↔ j = i) := by
    intro j e hj
    obtain ⟨e0, he0, he⟩ := hfrom j e hj
    have hcls : e.installTab = e0.installTab := by rw [he]; exact (clicked_classes i _ j e0).1
    simp only [Bool.and_eq_true]
    constructor
    · rintro ⟨het, hea⟩
      rcases (hact j e hj (Or.inl het)).mp hea with hji | hq
      · exact hji
      · exact absurd hq (hnotq j e0 he0 (by rw [← hcls]; exact het))
    · intro hji
      subst hji
      rw [h] at he0
      cases he0
      have het : e.installTab = true := by rw [hcls]; exact htab
      exact ⟨het, (hact j e hj (Or.inl het)).mpr (Or.inl rfl)⟩
  have hpanels : ∀ j e, (tabClick querySelector i doc)[j]? = some e →
      ((e.installPanel && e.active) = true ↔
        (e.installPanel = true ∧ firstPanel (targetText this.dataTab) doc = some j)) := by
    intro j e hj
    obtain ⟨e0, he0, he⟩ := hfrom j e hj
    have hcls : e.installPanel = e0.installPanel := by
      rw [he]; exact (clicked_classes i _ j e0).2.1
    simp only [Bool.and_eq_true]
    constructor
    · rintro ⟨hep, hea⟩
      refine ⟨hep, ?_⟩
      rcases (hact j e hj (Or.inr hep)).mp hea with hji | hq
      · subst hji
        rw [h] at he0
        cases he0
        have := (hsep this (List.mem_iff_getElem?.mpr ⟨_, h⟩) htab).1
        rw [hcls, this] at hep
        cases hep
      · exact hq
    · rintro ⟨hep, hq⟩
      exact ⟨hep, (hact j e hj (Or.inr hep)).mpr (Or.inr hq)⟩
  have hcount : (activePanels (tabClick querySelector i doc)).length
      = match firstPanel (targetText this.dataTab) doc with
        | none => 0
        | some k => match doc[k]? with
          | none => 0
          | some a => if a.installPanel then 1 else 0 := by
    unfold activePanels
    rw [← List.countP_eq_length_filter]
    cases hq : firstPanel (targetText this.dataTab) doc with
    | none =>
      apply countP_none
      intro j e hj
      cases hp : (e.installPanel && e.active) with
      | false => rfl
      | true =>
        have := ((hpanels j e hj).mp hp).2
        rw [hq] at this
        cases this
    | some k =>
      obtain ⟨a, ha, _⟩ := firstIdx_some _ _ _ hq
      simp only [ha]
      by_cases hap : a.installPanel = true
      · simp only [hap, if_true]
        rw [countP_unique _ _ k, hlen, if_pos (lt_of_getElem?_some ha)]
        intro j e hj
        rw [hpanels j e hj, hq]
        constructor
        · rintro ⟨_, hk⟩
          exact (Option.some.inj hk).symm
        · intro hjk
          subst hjk
          obtain ⟨e0, he0, he⟩ := hfrom j e hj
          rw [ha] at he0
          cases he0
          refine ⟨?_, rfl⟩
          rw [he, (clicked_classes i _ j a).2.1]
          exact hap
      · simp only [hap]
        apply countP_none
        intro j e hj
        cases hp : (e.installPanel && e.active) with
        | false => rfl
        | true =>
          obtain ⟨hep, hk⟩ := (hpanels j e hj).mp hp
          rw [hq] at hk
          have hkj : k = j := Option.some.inj hk
          subst hkj
          obtain ⟨e0, he0, he⟩ := hfrom k e hj
          rw [ha] at he0
          cases he0
          rw [he, (clicked_classes i _ k a).2.1] at hep
          exact absurd hep hap
  refine ⟨?_, ?_, ?_, ?_, ?_⟩
  · unfold activeTabs
    rw [← List.countP_eq_length_filter, countP_unique _ _ i htabs, hlen, if_pos hi]
  · intro t ht
    unfold activeTabs at ht
    rw [List.mem_filter] at ht
    obtain ⟨j, hj⟩ := List.getElem?_of_mem ht.1
    have hji := (htabs j t hj).mp ht.2
    subst hji
    obtain ⟨e0, he0, he⟩ := hfrom j t hj
    rw [h] at he0
    cases he0
    rw [he]
    obtain ⟨it, ip, dt, dp, act, aria⟩ := this
    simp only [clicked, deselectPanel, deselectTab, selectTab, activate]
    split <;> split <;> split <;> simp
  · rw [hcount]
    split
    · exact Nat.zero_le _
    · split
      · exact Nat.zero_le _
      · split <;> simp
  · intro p hp
    unfold activePanels at hp
    rw [List.mem_filter] at hp
    obtain ⟨j, hj⟩ := List.getElem?_of_mem hp.1
    obtain ⟨_, hq⟩ := (hpanels j p hj).mp hp.2
    obtain ⟨a, ha, hpa⟩ := firstIdx_some _ _ _ hq
    obtain ⟨e0, he0, he⟩ := hfrom j p hj
    rw [ha] at he0
    cases he0
    rw [he, (clicked_classes i _ j a).2.2]
    simpa using hpa
  · rw [hcount]
    cases hq : firstPanel (targetText this.dataTab) doc with
    | none => simp
    | some k =>
      obtain ⟨a, hk, _⟩ := firstIdx_some _ _ _ hq
      simp only [hk]
      by_cases hinst : a.installPanel = true
      · simp only [hinst, if_true, true_iff]
        exact ⟨k, a, rfl, hk, hinst⟩
      · simp only [hinst]
        constructor
        · intro hc; simp at hc
        · rintro ⟨j, p, hj, hp, hpi⟩
          cases hj
          rw [hk] at hp
          cases hp
          exact absurd hpi hinst

/-- C4, amended, on three tabs and their panels with the first of each active,
with the sample query engine: activating the second tab (`go`) leaves only the
second tab and the panel `go` active. -/
theorem tab_click_witness :
    QuerySpec plainQuerySelector
    ∧ threeTabs[1]? = some (mkTab ['g', 'o'] false)
    ∧ (mkTab ['g', 'o'] false).installTab = true
    ∧ (∀ c ∈ targetText (mkTab ['g', 'o'] false).dataTab, plainChar c = true)
    ∧ (∀ e ∈ threeTabs, e.installTab = true → e.installPanel = false ∧ e.dataPanel = none)
    ∧ tabClick plainQuerySelector 1 threeTabs
        = [mkTab ['b', 'r', 'e', 'w'] false, mkTab ['g', 'o'] true,
           mkTab ['s', 'r', 'c'] false, mkPanel ['b', 'r', 'e', 'w'] false,
           mkPanel ['g', 'o'] true, mkPanel ['s', 'r', 'c'] false]
    ∧ (activeTabs (tabClick plainQuerySelector 1 threeTabs)).length = 1
    ∧ (∀ t ∈ activeTabs (tabClick plainQuerySelector 1 threeTabs),
        t.dataTab = some ['g', 'o'])
    ∧ (activePanels (tabClick plainQuerySelector 1 threeTabs)).length = 1
    ∧ (∀ p ∈ activePanels (tabClick plainQuerySelector 1 threeTabs),
        p.dataPanel = some ['g', 'o']) := by
  have hsep : ∀ e ∈ threeTabs, e.installTab = true →
      e.installPanel = false ∧ e.dataPanel = none := by decide
  have hplain : ∀ c ∈ targetText (mkTab ['g', 'o'] false).dataTab, plainChar c = true := by
    decide
  have key := (tab_click plainQuerySelector threeTabs 1 (mkTab ['g', 'o'] false)
    plainQuerySelector_spec (by decide) rfl hplain).2.2 hsep
  exact ⟨plainQuerySelector_spec, by decide, rfl, hplain, hsep, by decide, key.1, key.2.1,
    key.2.2.2.2.mpr ⟨4, mkPanel ['g', 'o'] false, by decide, by decide, rfl⟩,
    key.2.2.2.1⟩

/-- C4 as stated fails for a tab whose identifier no panel carries: after the
tab `go` is activated in a document whose only panel is `brew`, one tab is
active and no panel is. -/
theorem tab_click_counterexample :
    orphanTab[1]? = some (mkTab ['g', 'o'] false)
    ∧ (∀ c ∈ targetText (mkTab ['g', 'o'] false).dataTab, plainChar c = true)
    ∧ firstPanel ['g', 'o'] orphanTab = none
    ∧ (activeTabs (tabClick plainQuerySelector 1 orphanTab)).length = 1
    ∧ (activePanels (tabClick plainQuerySelector 1 orphanTab)).length = 0
    ∧ (activePanels (tabClick plainQuerySelector 1 orphanTab)).length ≠ 1 := by
  refine ⟨?_, ?_, ?_, ?_, ?_, ?_⟩ <;> decide

end Ical
